import Mathlib

/-!
A shallow embedding of the sea-battle rules engine (src/sea_battle.py) and
proofs about it.  Python sets of value-hashable cells become Finsets; the
set of ships (which Python compares by object identity and iterates in an
unspecified order) becomes a list in insertion order; the 2D field array
becomes a list of rows; exceptions become Except values paired with the
board state at the moment the exception escapes, so that a mutation made
before a raise is faithfully visible.
-/

/-- A board coordinate: an immutable (row, col) pair with value equality
(class Cell in the source). -/
structure Cell where
  row : Int
  col : Int
deriving DecidableEq

/-- The four cell states of class CellState (FREE, MISS, SHIP, WRECK). -/
inductive CellState where
  | FREE
  | MISS
  | SHIP
  | WRECK
deriving DecidableEq

/-- Shot outcomes of class ShipState (HIT, MISS, SINK). -/
inductive ShipState where
  | HIT
  | MISS
  | SINK
deriving DecidableEq

/-- The closed set of board exceptions: BoardOutException, BoardUsedException,
BoardShipPlacementException, BadBoardException. -/
inductive BoardErr where
  | outOfBoard
  | used
  | shipPlacement
  | badBoard
deriving DecidableEq

/-- A ship owns the set of cells it still occupies (Ship.cells is a Python
set of value-hashable Cell objects, hence a Finset). -/
structure Ship where
  cells : Finset Cell
deriving DecidableEq

/-- Ship.add_cell: add a cell to the ship. -/
def Ship.add_cell (s : Ship) (cell : Cell) : Ship :=
  ⟨insert cell s.cells⟩

/-- Ship.is_hit: search the ship for a cell equal to the target, returning it
when found.  Python scans the set for an __eq__ match; with value equality
that is exactly a membership test. -/
def Ship.is_hit (s : Ship) (target : Cell) : Option Cell :=
  if target ∈ s.cells then some target else none

/-- Ship.hit: remove the target cell when the ship holds it; HIT while cells
remain, SINK when the ship becomes empty, MISS when the target is absent. -/
def Ship.hit (s : Ship) (target : Cell) : ShipState × Ship :=
  match s.is_hit target with
  | some hit_cell =>
      let s' : Ship := ⟨s.cells.erase hit_cell⟩
      if s'.cells = ∅ then (ShipState.SINK, s') else (ShipState.HIT, s')
  | none => (ShipState.MISS, s)

/-- The board: size, the size×size field of cell states, the set of already
fired-upon coordinates, and the live ships in insertion order. -/
structure Board where
  size : Nat
  field : List (List CellState)
  shots : Finset Cell
  ships : List Ship
deriving DecidableEq

/-- Board.__init__: a fresh board of the given size, all cells FREE; sizes
outside (0, 10] raise BadBoardException. -/
def Board.init (size : Nat) : Except BoardErr Board :=
  if 0 < size ∧ size ≤ 10 then
    Except.ok
      { size := size
        field := List.replicate size (List.replicate size CellState.FREE)
        shots := ∅
        ships := [] }
  else Except.error BoardErr.badBoard

/-- The bounds test 0 <= row < size and 0 <= col < size used by
get_cell, set_cell and get_nbhd. -/
def Board.inb (b : Board) (cell : Cell) : Bool :=
  decide (0 ≤ cell.row) && decide (cell.row < (b.size : Int)) &&
  decide (0 ≤ cell.col) && decide (cell.col < (b.size : Int))

/-- Board.get_cell: the field entry at the cell, BoardOutException off-grid. -/
def Board.get_cell (b : Board) (cell : Cell) : Except BoardErr CellState :=
  if b.inb cell then
    Except.ok ((b.field.getD cell.row.toNat []).getD cell.col.toNat CellState.FREE)
  else Except.error BoardErr.outOfBoard

/-- The raw field update self.field[row][col] = value (no bounds check;
set_cell wraps it with one). -/
def Board.upd (b : Board) (cell : Cell) (value : CellState) : Board :=
  { b with
    field := b.field.set cell.row.toNat
      ((b.field.getD cell.row.toNat []).set cell.col.toNat value) }

/-- Board.set_cell: bounds-checked field update, BoardOutException off-grid. -/
def Board.set_cell (b : Board) (cell : Cell) (value : CellState) :
    Except BoardErr Board :=
  if b.inb cell then Except.ok (b.upd cell value)
  else Except.error BoardErr.outOfBoard

/-- Board.AREA_FULL: row/col offsets for the full 8-neighbourhood. -/
def AREA_FULL : List Int := [-1, 0, 1]

/-- Board.AREA_DIAG: row/col offsets for the diagonal neighbourhood. -/
def AREA_DIAG : List Int := [-1, 1]

/-- The (offset_row, offset_col) pairs visited by the two nested loops of
get_nbhd, in visiting order. -/
def areaPairs (area : List Int) : List (Int × Int) :=
  area.foldr (fun r acc => (area.map fun c => (r, c)) ++ acc) []

/-- Board.get_nbhd: the neighbour cells of a cell for the given offset area,
skipping the cell itself and clipping to the board.  The Python function
returns a set (its cells are pairwise distinct); we keep them as a list in
generation order, one admissible iteration order of that set. -/
def Board.get_nbhd (b : Board) (cell : Cell) (area : List Int) : List Cell :=
  (areaPairs area).filterMap fun o =>
    if o.1 = 0 ∧ o.2 = 0 then none
    else if b.inb ⟨cell.row + o.1, cell.col + o.2⟩ then
      some ⟨cell.row + o.1, cell.col + o.2⟩
    else none

/-- Board.get_nbhd_v: the up-to-2 vertical neighbours, clipped to the board
by their row only (the source checks only the row bound here). -/
def Board.get_nbhd_v (b : Board) (cell : Cell) : List Cell :=
  ([-1, 1] : List Int).filterMap fun offset =>
    if 0 ≤ cell.row + offset ∧ cell.row + offset < (b.size : Int) then
      some ⟨cell.row + offset, cell.col⟩
    else none

/-- Board.get_nbhd_h: the up-to-2 horizontal neighbours, clipped to the board
by their column only. -/
def Board.get_nbhd_h (b : Board) (cell : Cell) : List Cell :=
  ([-1, 1] : List Int).filterMap fun offset =>
    if 0 ≤ cell.col + offset ∧ cell.col + offset < (b.size : Int) then
      some ⟨cell.row, cell.col + offset⟩
    else none

/-- Whether the 8-neighbour scan of add_ship flags this neighbour: its field
entry reads SHIP. -/
def Board.isShipAt (b : Board) (cell : Cell) : Bool :=
  match b.get_cell cell with
  | Except.ok CellState.SHIP => true
  | _ => false

/-- The per-cell placement check of add_ship: the cell must read FREE and no
8-neighbour may read SHIP; an off-grid cell raises BoardOutException from
get_cell itself. -/
def Board.check_ship_cell (b : Board) (cell : Cell) : Except BoardErr Unit :=
  match b.get_cell cell with
  | Except.error e => Except.error e
  | Except.ok st =>
      if st ≠ CellState.FREE then Except.error BoardErr.shipPlacement
      else if (b.get_nbhd cell AREA_FULL).any fun n => b.isShipAt n then
        Except.error BoardErr.shipPlacement
      else Except.ok ()

/-- The check loop of add_ship over a list of the ship cells. -/
def Board.check_ship (b : Board) : List Cell → Except BoardErr Unit
  | [] => Except.ok ()
  | cell :: rest =>
      match b.check_ship_cell cell with
      | Except.error e => Except.error e
      | Except.ok _ => b.check_ship rest

/-- The commit loop of add_ship: set every ship cell to SHIP via set_cell,
stopping at the board reached so far should set_cell ever raise (it cannot,
the check loop has already bounds-checked every cell). -/
def Board.mark_cells : Board → List Cell → Except BoardErr Unit × Board
  | b, [] => (Except.ok (), b)
  | b, cell :: rest =>
      match b.set_cell cell CellState.SHIP with
      | Except.ok b' => b'.mark_cells rest
      | Except.error e => (Except.error e, b)

/-- Row-major order on cells, used only to fix an enumeration of cell sets. -/
def cellLe (c d : Cell) : Prop :=
  c.row < d.row ∨ (c.row = d.row ∧ c.col ≤ d.col)

instance : DecidableRel cellLe := fun c d => by
  unfold cellLe
  infer_instance

instance : IsTrans Cell cellLe :=
  ⟨by
    intro a b c hab hbc
    unfold cellLe at *
    omega⟩

instance : IsTotal Cell cellLe :=
  ⟨by
    intro a b
    unfold cellLe
    omega⟩

instance : IsAntisymm Cell cellLe :=
  ⟨by
    intro a b hab hba
    have h1 : a.row = b.row := by
      unfold cellLe at *
      omega
    have h2 : a.col = b.col := by
      unfold cellLe at *
      omega
    cases a
    cases b
    simp_all⟩

/-- A canonical enumeration of a multiset of cells by insertion sort; the
sort is invariant under permutation of the underlying list, so it lifts
through the quotient. -/
def sortedCells (m : Multiset Cell) : List Cell :=
  Quot.liftOn m (List.insertionSort cellLe) fun l1 l2 h =>
    List.eq_of_perm_of_sorted
      ((List.perm_insertionSort cellLe l1).trans
        ((Quotient.exact (Quot.sound h)).trans
          (List.perm_insertionSort cellLe l2).symm))
      (List.sorted_insertionSort cellLe l1)
      (List.sorted_insertionSort cellLe l2)

/-- An arbitrary but fixed enumeration of a ship cell set, standing for the
unspecified Python set iteration order; the placement check and commit are
order-independent. -/
def Ship.cellList (s : Ship) : List Cell :=
  sortedCells s.cells.val

/-- Board.add_ship: check every cell of the candidate ship (raising
BoardShipPlacementException on an occupied cell or a SHIP 8-neighbour),
then add the ship to the live set and mark its cells SHIP. -/
def Board.add_ship (b : Board) (ship : Ship) : Except BoardErr Unit × Board :=
  match b.check_ship ship.cellList with
  | Except.error e => (Except.error e, b)
  | Except.ok _ =>
      let b1 : Board := { b with ships := b.ships ++ [ship] }
      b1.mark_cells ship.cellList

/-- The loop of Board.shot over the live ships: try each ship in turn; on a
HIT keep the shrunk ship, on a SINK drop it, on a MISS move on.  Returns
none when no ship holds the point. -/
def shotShips (hit_point : Cell) : List Ship → Option ShipState × List Ship
  | [] => (none, [])
  | ship :: rest =>
      match ship.hit hit_point with
      | (ShipState.HIT, ship') => (some ShipState.HIT, ship' :: rest)
      | (ShipState.SINK, _) => (some ShipState.SINK, rest)
      | (ShipState.MISS, _) =>
          let r := shotShips hit_point rest
          (r.1, ship :: r.2)

/-- Board.shot: reject a repeated coordinate (BoardUsedException) before
touching anything; then record the coordinate in shots; only then run the
out-of-boundary check (so an off-grid coordinate escapes with the shot
already recorded); then resolve against the live ships, marking the cell
WRECK on HIT or SINK and MISS otherwise.  set_cell cannot raise in the
resolution: get_cell has already accepted the coordinate, so `upd` is its
exact effect. -/
def Board.shot (b : Board) (hit_point : Cell) :
    Except BoardErr ShipState × Board :=
  if hit_point ∈ b.shots then (Except.error BoardErr.used, b)
  else
    let b1 : Board := { b with shots := insert hit_point b.shots }
    match b1.get_cell hit_point with
    | Except.error e => (Except.error e, b1)
    | Except.ok _ =>
        match shotShips hit_point b1.ships with
        | (some ShipState.HIT, ships') =>
            (Except.ok ShipState.HIT,
              Board.upd { b1 with ships := ships' } hit_point CellState.WRECK)
        | (some ShipState.SINK, ships') =>
            (Except.ok ShipState.SINK,
              Board.upd { b1 with ships := ships' } hit_point CellState.WRECK)
        | (_, ships') =>
            (Except.ok ShipState.MISS,
              Board.upd { b1 with ships := ships' } hit_point CellState.MISS)

/-- Board.clear: drop every live ship and reset the field to FREE; the shots
set is left as it is. -/
def Board.clear (b : Board) : Board :=
  { b with
    ships := []
    field := List.replicate b.size (List.replicate b.size CellState.FREE) }

/-- Modelled randomness: the global random generator becomes an explicit
stream of naturals with a read position; each randint call consumes one
stream value.  All claims below are independent of the distribution. -/
structure Rng where
  stream : Nat → Nat
  pos : Nat

/-- Draw the next raw stream value. -/
def Rng.next (g : Rng) : Nat × Rng :=
  (g.stream g.pos, { g with pos := g.pos + 1 })

/-- random.randint(a, b): a draw in [a, b].  The callers in this file only
use it with a ≤ b (Python raises otherwise); we return a on an empty range
to stay total. -/
def randint (a b : Int) (g : Rng) : Int × Rng :=
  let r := g.next
  if b < a then (a, r.2) else (a + (r.1 : Int) % (b - a + 1), r.2)

/-- random.choice on a list: a draw from its elements, none when empty
(Python raises on an empty sequence). -/
def choiceList (l : List Cell) (g : Rng) : Option Cell × Rng :=
  let r := g.next
  (l.get? (r.1 % l.length), r.2)

/-- The cell-building loop of ShipFactory.build_ship: from the random
origin, step down the rows when the orientation drawn is truthy, else step
right along the columns. -/
def buildCells (row col orientation : Int) : Nat → List Cell
  | 0 => []
  | n + 1 =>
      Cell.mk row col ::
        (if orientation ≠ 0 then buildCells (row + 1) col orientation n
         else buildCells row (col + 1) orientation n)

/-- ShipFactory.build_ship: draw an origin with both coordinates in
[0, board_size - ship_size] and an orientation bit, then lay the ship cell
by cell. -/
def ShipFactory.build_ship (ship_size board_size : Nat) (g : Rng) : Ship × Rng :=
  let r1 := randint 0 ((board_size : Int) - ship_size) g
  let r2 := randint 0 ((board_size : Int) - ship_size) r1.2
  let r3 := randint 0 1 r2.2
  ((buildCells r1.1 r2.1 r3.1 ship_size).foldl Ship.add_cell ⟨∅⟩, r3.2)

/-- The module-level fleet configuration SHIP_SET. -/
def SHIP_SET : List Nat := [3, 2, 2, 1, 1, 1, 1]

/-- The module-level board size BOARD_SIZE. -/
def BOARD_SIZE : Nat := 6

/-- The inner retry loop of Game.place_ships: up to the given number of
attempts to build and add one ship of the given size, keeping the board
untouched across failed attempts (a rejected add_ship mutates nothing);
ok none when every attempt was rejected, and any exception other than
BoardShipPlacementException escapes uncaught. -/
def placeOne : Nat → Board → Nat → Rng → Except BoardErr (Option Board) × Rng
  | 0, _, _, g => (Except.ok none, g)
  | tries + 1, board, ship_size, g =>
      let r := ShipFactory.build_ship ship_size board.size g
      match board.add_ship r.1 with
      | (Except.ok _, board1) => (Except.ok (some board1), r.2)
      | (Except.error BoardErr.shipPlacement, _) => placeOne tries board ship_size r.2
      | (Except.error e, _) => (Except.error e, r.2)

/-- The `for ship_size in ship_set` loop of Game.place_ships: place each
size with up to 1000 attempts; when one size exhausts its attempts, clear
the board and stop the pass early (the Python break). -/
def placeRow : Board → List Nat → Rng → Except BoardErr Board × Rng
  | board, [], g => (Except.ok board, g)
  | board, ship_size :: rest, g =>
      match placeOne 1000 board ship_size g with
      | (Except.ok (some board1), g1) => placeRow board1 rest g1
      | (Except.ok none, g1) => (Except.ok board.clear, g1)
      | (Except.error e, g1) => (Except.error e, g1)

/-- The outer retry loop of Game.place_ships: after each pass, return the
board when its ship count equals the length of the global SHIP_SET (the
source compares against the global fleet list, not the ship_set argument);
after the given number of passes, raise BoardShipPlacementException. -/
def placeLoop : Nat → Board → List Nat → Rng → Except BoardErr Board × Rng
  | 0, _, _, g => (Except.error BoardErr.shipPlacement, g)
  | rounds + 1, board, ship_set, g =>
      match placeRow board ship_set g with
      | (Except.ok board1, g1) =>
          if board1.ships.length = SHIP_SET.length then (Except.ok board1, g1)
          else placeLoop rounds board1 ship_set g1
      | (Except.error e, g1) => (Except.error e, g1)

/-- Game.place_ships: 100 outer passes over the fleet list. -/
def Game.place_ships (board : Board) (ship_set : List Nat) (g : Rng) :
    Except BoardErr Board × Rng :=
  placeLoop 100 board ship_set g

/-- The automated opponent (class Robot): its own board, its ordered move
history, its private revealed view of the enemy (a Board of its own that it
marks itself), and the active not-yet-sunk hits. -/
structure Robot where
  board_size : Nat
  board : Board
  move_list : List Cell
  enemy_board : Board
  hits : List Cell

/-- Whether a cell of the revealed view reads WRECK. -/
def Board.isWreckAt (b : Board) (cell : Cell) : Bool :=
  match b.get_cell cell with
  | Except.ok CellState.WRECK => true
  | _ => false

/-- The candidate set built by the first half of Robot._chase: with a single
active hit, its vertical and horizontal neighbours; with two or more, the
row delta of the first two hits picks vertical (non-zero) or horizontal
(zero), and the candidates are that direction's neighbours of every hit. -/
def Robot.chase_nbhd (r : Robot) : List Cell :=
  match r.hits with
  | [] => []
  | [h0] => (r.enemy_board.get_nbhd_v h0).union (r.enemy_board.get_nbhd_h h0)
  | h0 :: h1 :: _ =>
      let is_vertical := h0.row - h1.row ≠ 0
      r.hits.foldl
        (fun nbhd cell =>
          nbhd.union (if is_vertical then r.enemy_board.get_nbhd_v cell
                      else r.enemy_board.get_nbhd_h cell))
        []

/-- The first WRECK-marked neighbour of a candidate that is not an active
hit, in the neighbour generation order (the inner for/break of _chase). -/
def Robot.firstForeignWreck (r : Robot) (cell : Cell) : Option Cell :=
  (r.enemy_board.get_nbhd cell AREA_FULL).find? fun c2 =>
    r.enemy_board.isWreckAt c2 && decide (c2 ∉ r.hits)

/-- The filter loop of Robot._chase, iterating over a copy of the candidate
set: a candidate already in move_list is removed; otherwise, when some
neighbour of the candidate is a WRECK of another ship, the source discards
that neighbour from the candidate set (nbhd.discard(cell_)) — not the
candidate itself — and breaks. -/
def Robot.chaseFilterLoop (r : Robot) : List Cell → List Cell → List Cell
  | [], nbhd => nbhd
  | cell :: rest, nbhd =>
      if cell ∈ r.move_list then r.chaseFilterLoop rest (nbhd.erase cell)
      else
        match r.firstForeignWreck cell with
        | some c2 => r.chaseFilterLoop rest (nbhd.erase c2)
        | none => r.chaseFilterLoop rest nbhd

/-- The candidate set Robot._chase draws from after filtering. -/
def Robot.chase_candidates (r : Robot) : List Cell :=
  r.chaseFilterLoop r.chase_nbhd r.chase_nbhd

/-- Robot._chase: a random choice among the filtered candidates. -/
def Robot.chase (r : Robot) (g : Rng) : Option Cell × Rng :=
  choiceList r.chase_candidates g

/-- Robot._random_hit: draw random coordinates until one is neither already
played nor 8-adjacent to a WRECK on the revealed view.  The Python loop is
while True; the fuel argument makes the search total, none standing for a
search that has not ended within the fuel. -/
def Robot.random_hit : Robot → Nat → Rng → Option Cell × Rng
  | _, 0, g => (none, g)
  | r, fuel + 1, g =>
      let r1 := randint 0 ((r.board_size : Int) - 1) g
      let r2 := randint 0 ((r.board_size : Int) - 1) r1.2
      let target : Cell := ⟨r1.1, r2.1⟩
      if target ∈ r.move_list then r.random_hit fuel r2.2
      else if (r.enemy_board.get_nbhd target AREA_FULL).any
                (fun cell => r.enemy_board.isWreckAt cell) then
        r.random_hit fuel r2.2
      else (some target, r2.2)

/-- Robot._brain: chase when there is a wounded ship, else hunt randomly. -/
def Robot.brain (r : Robot) (fuel : Nat) (g : Rng) : Option Cell × Rng :=
  if r.hits ≠ [] then r.chase g else r.random_hit fuel g

/-- Player.ask_move for the robot: produce the move and append it to
move_list. -/
def Robot.ask_move (r : Robot) (fuel : Nat) (g : Rng) :
    Option Cell × Robot × Rng :=
  match r.brain fuel g with
  | (some cell, g1) => (some cell, { r with move_list := r.move_list ++ [cell] }, g1)
  | (none, g1) => (none, r, g1)

/-- Player.processing_answer: mark the last move on the player's own board,
WRECK on HIT or SINK, MISS otherwise.  The cell was bounds-accepted by the
successful shot, so set_cell cannot raise and `upd` is its exact effect. -/
def Player.mark_answer (board : Board) (cell : Cell) (answer : ShipState) : Board :=
  if answer = ShipState.HIT ∨ answer = ShipState.SINK then
    board.upd cell CellState.WRECK
  else board.upd cell CellState.MISS

/-- Robot.processing_answer: the base bookkeeping, then record the move on
the revealed enemy view; a HIT extends the active hits, a SINK clears them. -/
def Robot.processing_answer (r : Robot) (answer : ShipState) : Robot :=
  let last := r.move_list.getLastD ⟨0, 0⟩
  let r1 : Robot := { r with board := Player.mark_answer r.board last answer }
  if answer = ShipState.HIT then
    { r1 with
      hits := r1.hits ++ [last]
      enemy_board := r1.enemy_board.upd last CellState.WRECK }
  else if answer = ShipState.SINK then
    { r1 with
      hits := []
      enemy_board := r1.enemy_board.upd last CellState.WRECK }
  else
    { r1 with enemy_board := r1.enemy_board.upd last CellState.MISS }

/-- One iteration of the Game.start loop, given the move of the active side:
fire at the enemy board; a BoardOutException or BoardUsedException is caught
and the same side stays active (the board keeps whatever the failed shot
already mutated); otherwise the turn passes to the other side exactly on a
MISS. -/
def Game.start_step (enemy : Board) (cell : Cell) (player_in_game : Nat) :
    Except BoardErr ShipState × Board × Nat :=
  match enemy.shot cell with
  | (Except.error e, enemy1) => (Except.error e, enemy1, player_in_game)
  | (Except.ok answer, enemy1) =>
      (Except.ok answer, enemy1,
        if answer = ShipState.MISS then 1 - player_in_game else player_in_game)

/-- A robot playing n turns against an enemy board, exactly as the Game.start
loop drives it: ask the brain for a move, fire, feed the outcome back into
processing_answer.  Returns the moves chosen and the outcomes revealed; the
trace stops early on fuel exhaustion or a rejected shot. -/
def robotVs (r : Robot) (enemy : Board) (fuel : Nat) (g : Rng) :
    Nat → List Cell × List ShipState
  | 0 => ([], [])
  | turns + 1 =>
      match r.ask_move fuel g with
      | (none, _, _) => ([], [])
      | (some cell, r1, g1) =>
          match enemy.shot cell with
          | (Except.error _, _) => ([cell], [])
          | (Except.ok answer, enemy1) =>
              let r2 := r1.processing_answer answer
              let rec_ := robotVs r2 enemy1 fuel g1 turns
              (cell :: rec_.1, answer :: rec_.2)

/-- Firing a whole list of coordinates one by one, collecting each shot
result (used to state the one-by-one sinking property). -/
def shootSeq : Board → List Cell → List (Except BoardErr ShipState) × Board
  | b, [] => ([], b)
  | b, cell :: rest =>
      let r := b.shot cell
      let r2 := shootSeq r.2 rest
      (r.1 :: r2.1, r2.2)

-- Decidable equality of exception-carrying results, for concrete runs.
deriving instance DecidableEq for Except

/-- The 8-neighbour relation of the specification: distinct cells whose rows
and columns each differ by at most one. -/
def isNeighbor (c d : Cell) : Prop :=
  c ≠ d ∧ -1 ≤ c.row - d.row ∧ c.row - d.row ≤ 1 ∧
    -1 ≤ c.col - d.col ∧ c.col - d.col ≤ 1

instance (c d : Cell) : Decidable (isNeighbor c d) := by
  unfold isNeighbor; infer_instance

/-- Dimensional well-formedness of the field array: size rows of size
cells each, as Board.__init__ builds it. -/
def Board.WF (b : Board) : Prop :=
  b.field.length = b.size ∧ ∀ row ∈ b.field, row.length = b.size

instance (b : Board) : Decidable b.WF := by
  unfold Board.WF; infer_instance

/-- Two ships that neither share a cell nor touch, diagonals included. -/
def ShipsApart (s t : Ship) : Prop :=
  ∀ c ∈ s.cells, ∀ d ∈ t.cells, c ≠ d ∧ ¬ isNeighbor c d

/-- The internal board invariant: well-formed field, every live ship cell
reads SHIP on the field, and the live ships are pairwise apart. -/
def Board.Inv (b : Board) : Prop :=
  b.WF ∧
  (∀ s ∈ b.ships, ∀ c ∈ s.cells, b.get_cell c = Except.ok CellState.SHIP) ∧
  List.Pairwise ShipsApart b.ships

/-- The boards reachable from a fresh board by any interleaving of add_ship
and shot calls, each call taken with whatever it leaves behind, exceptions
included. -/
inductive Reachable : Board → Prop where
  | init : ∀ (size : Nat) (b : Board), Board.init size = Except.ok b → Reachable b
  | add_ship : ∀ (b : Board) (ship : Ship), Reachable b → Reachable (b.add_ship ship).2
  | shot : ∀ (b : Board) (cell : Cell), Reachable b → Reachable (b.shot cell).2

/-- A fresh board of a given size (the ok value of Board.init). -/
def freshBoard (size : Nat) : Board :=
  ⟨size, List.replicate size (List.replicate size CellState.FREE), ∅, []⟩

/-- A constant-zero random stream. -/
def zeroRng : Rng := ⟨fun _ => 0, 0⟩

/-- Concrete input for C1: a fresh 6×6 board, as Game uses by default. -/
def board6 : Board := freshBoard 6

/-- Concrete two-cell ship for the C3 witness. -/
def shipC3 : Ship := ⟨{⟨0, 0⟩, ⟨0, 1⟩}⟩

/-- The 6×6 board holding shipC3. -/
def boardC3 : Board := (board6.add_ship shipC3).2

/-- Concrete ships for the C2 witness: two one-cell ships two rows apart. -/
def shipC2a : Ship := ⟨{⟨0, 0⟩}⟩

def shipC2b : Ship := ⟨{⟨2, 2⟩}⟩

/-- A reachable 4×4 board holding shipC2a and shipC2b. -/
def boardC2 : Board :=
  (((freshBoard 4).add_ship shipC2a).2.add_ship shipC2b).2

/-- A one-cell vessel diagonally touching shipC3, for the C4 witness. -/
def shipC4w : Ship := ⟨{⟨1, 2⟩}⟩

/-- The random stream of the C5 run: each pass over ship_set = [1] succeeds
at its first attempt, at cells (0,0), (2,0), (4,0), (6,0), (8,0), (0,2),
(2,2) in turn, none of which touch. -/
def streamC5 : Nat → Nat :=
  fun n => [0, 0, 0, 2, 0, 0, 4, 0, 0, 6, 0, 0, 8, 0, 0, 0, 2, 0, 2, 2, 0].getD n 0

def rngC5 : Rng := ⟨streamC5, 0⟩

/-- A fresh 10×10 board for the C5 run. -/
def board10 : Board := freshBoard 10

/-- The board the C5 run returns. -/
def boardC5 : Board :=
  ((Game.place_ships board10 [1] rngC5).1.toOption).getD board10

/-- Concrete input for the C6 example: one active hit at (2,3) on an empty
10×10 view. -/
def robotC6 : Robot := ⟨10, board10, [], board10, [⟨2, 3⟩]⟩

/-- Concrete input for C7: on a 4×4 view, a sunk one-cell ship left a WRECK
at (0,2) and the active hit is the WRECK at (2,2); both cells were played. -/
def viewC7 : Board :=
  ((freshBoard 4).upd ⟨0, 2⟩ CellState.WRECK).upd ⟨2, 2⟩ CellState.WRECK

def robotC7 : Robot := ⟨4, freshBoard 4, [⟨0, 2⟩, ⟨2, 2⟩], viewC7, [⟨2, 2⟩]⟩

/-- Concrete input for the C8 witness: a hunting robot on a 2×2 board. -/
def robotC8 : Robot := ⟨2, freshBoard 2, [], freshBoard 2, []⟩

/-- The stream position after the two draws of the C8 witness move. -/
def rngC8' : Rng := ⟨fun _ => 0, 2⟩

/-- Concrete inputs for the C9 witness: the same robot facing an empty 3×3
board and a 3×3 board carrying a one-cell ship at (2,2); its first shot
lands on (0,0) and misses on both. -/
def robotC9 : Robot := ⟨3, freshBoard 3, [], freshBoard 3, []⟩

def boardC9a : Board := freshBoard 3

def boardC9b : Board := ((freshBoard 3).add_ship ⟨{⟨2, 2⟩}⟩).2

/-- Concrete input for the C10 witness: the 6×6 board after one hit on
shipC3, then cleared. -/
def boardC10 : Board := (boardC3.shot ⟨0, 0⟩).2

theorem Board.inb_iff {b : Board} {c : Cell} :
    b.inb c = true ↔
      0 ≤ c.row ∧ c.row < (b.size : Int) ∧ 0 ≤ c.col ∧ c.col < (b.size : Int) := by
  simp [Board.inb, and_assoc]

@[simp] theorem Board.upd_size (b : Board) (c : Cell) (v : CellState) :
    (b.upd c v).size = b.size := rfl

@[simp] theorem Board.upd_shots (b : Board) (c : Cell) (v : CellState) :
    (b.upd c v).shots = b.shots := rfl

@[simp] theorem Board.upd_ships (b : Board) (c : Cell) (v : CellState) :
    (b.upd c v).ships = b.ships := rfl

@[simp] theorem Board.upd_inb (b : Board) (c d : Cell) (v : CellState) :
    (b.upd c v).inb d = b.inb d := rfl

theorem Board.get_cell_ok_inb {b : Board} {c : Cell} {st : CellState}
    (h : b.get_cell c = Except.ok st) : b.inb c = true := by
  by_contra hc
  simp [Board.get_cell, hc] at h

theorem Board.isShipAt_iff {b : Board} {c : Cell} :
    b.isShipAt c = true ↔ b.get_cell c = Except.ok CellState.SHIP := by
  unfold Board.isShipAt
  constructor
  · intro h
    split at h
    next heq => exact heq
    next => simp at h
  · intro h
    rw [h]

theorem Board.isWreckAt_iff {b : Board} {c : Cell} :
    b.isWreckAt c = true ↔ b.get_cell c = Except.ok CellState.WRECK := by
  unfold Board.isWreckAt
  constructor
  · intro h
    split at h
    next heq => exact heq
    next => simp at h
  · intro h
    rw [h]

theorem Board.WF.upd {b : Board} (h : b.WF) (c : Cell) (v : CellState) :
    (b.upd c v).WF := by
  obtain ⟨hlen, hrow⟩ := h
  by_cases hr : c.row.toNat < b.field.length
  · have hget : b.field.getD c.row.toNat [] = b.field[c.row.toNat] := by
      simp [List.getD_eq_getElem?_getD, List.getElem?_eq_getElem hr]
    refine ⟨by simpa [Board.upd] using hlen, ?_⟩
    intro row hm
    simp only [Board.upd] at hm
    rcases List.mem_or_eq_of_mem_set hm with hmem | rfl
    · exact hrow _ hmem
    · rw [List.length_set, hget, hrow _ (List.getElem_mem hr)]
      rfl
  · constructor
    · simpa [Board.upd, List.set_eq_of_length_le (Nat.le_of_not_lt hr)] using hlen
    · intro row hm
      simp only [Board.upd, List.set_eq_of_length_le (Nat.le_of_not_lt hr)] at hm
      exact hrow _ hm

theorem Board.get_cell_upd_self {b : Board} {c : Cell} (v : CellState)
    (hwf : b.WF) (hc : b.inb c = true) :
    (b.upd c v).get_cell c = Except.ok v := by
  obtain ⟨hr0, hrs, hc0, hcs⟩ := Board.inb_iff.mp hc
  have hrlt : c.row.toNat < b.field.length := by
    rw [hwf.1]; omega
  have hrowget : b.field.getD c.row.toNat [] = b.field[c.row.toNat] := by
    simp [List.getD_eq_getElem?_getD, List.getElem?_eq_getElem hrlt]
  have hclt : c.col.toNat < (b.field.getD c.row.toNat []).length := by
    rw [hrowget, hwf.2 _ (List.getElem_mem hrlt)]; omega
  have hib : (b.upd c v).inb c = true := by rw [Board.upd_inb]; exact hc
  unfold Board.get_cell
  rw [hib]
  simp only [if_true]
  show Except.ok (((b.field.set c.row.toNat
      ((b.field.getD c.row.toNat []).set c.col.toNat v)).getD c.row.toNat []).getD
        c.col.toNat CellState.FREE) = Except.ok v
  simp only [List.getD_eq_getElem?_getD] at hclt ⊢
  rw [List.getElem?_set_eq_of_lt _ hrlt, Option.getD_some,
    List.getElem?_set_eq_of_lt _ hclt, Option.getD_some]

theorem Board.get_cell_upd_ne {b : Board} {c d : Cell} (v : CellState)
    (hwf : b.WF) (hc : b.inb c = true) (hne : d ≠ c) :
    (b.upd c v).get_cell d = b.get_cell d := by
  obtain ⟨hcr0, hcrs, hcc0, hccs⟩ := Board.inb_iff.mp hc
  have hrlt : c.row.toNat < b.field.length := by rw [hwf.1]; omega
  by_cases hd : b.inb d = true
  · obtain ⟨hdr0, hdrs, hdc0, hdcs⟩ := Board.inb_iff.mp hd
    have hibd : (b.upd c v).inb d = true := by rw [Board.upd_inb]; exact hd
    unfold Board.get_cell
    rw [hibd, hd]
    simp only [if_true]
    by_cases hrow : d.row.toNat = c.row.toNat
    · have hcol : d.col ≠ c.col := by
        intro hcoleq
        have hroweq : d.row = c.row := by omega
        exact hne (by cases c; cases d; simp_all)
      have hcolne : c.col.toNat ≠ d.col.toNat := by omega
      simp only [Board.upd, hrow, List.getD_eq_getElem?_getD]
      rw [List.getElem?_set_eq_of_lt _ hrlt, Option.getD_some,
        List.getElem?_set_ne hcolne]
    · simp only [Board.upd, List.getD_eq_getElem?_getD,
        List.getElem?_set_ne (Ne.symm hrow)]
  · simp [Board.get_cell, hd]

@[simp] theorem Board.clear_ships (b : Board) : b.clear.ships = [] := rfl

@[simp] theorem Board.clear_shots (b : Board) : b.clear.shots = b.shots := rfl

@[simp] theorem Board.clear_size (b : Board) : b.clear.size = b.size := rfl

theorem freshField_WF (size : Nat) :
    (List.replicate size (List.replicate size CellState.FREE)).length = size ∧
    ∀ row ∈ List.replicate size (List.replicate size CellState.FREE),
      row.length = size := by
  constructor
  · simp
  · intro row hm
    rw [List.eq_of_mem_replicate hm]
    simp

theorem Board.clear_WF (b : Board) : b.clear.WF := by
  have h := freshField_WF b.size
  exact ⟨h.1, h.2⟩

theorem freshField_get (size : Nat) (c : Cell) :
    ((List.replicate size (List.replicate size CellState.FREE)).getD
      c.row.toNat []).getD c.col.toNat CellState.FREE = CellState.FREE := by
  by_cases hr : c.row.toNat < size <;>
    by_cases hcc : c.col.toNat < size <;>
      simp [List.getD_eq_getElem?_getD, List.getElem?_replicate, hr, hcc]

theorem Board.clear_get_cell {b : Board} {c : Cell} (hc : b.inb c = true) :
    b.clear.get_cell c = Except.ok CellState.FREE := by
  have hcc : b.clear.inb c = true := hc
  unfold Board.get_cell
  rw [hcc]
  simp only [if_true, Board.clear, freshField_get]

theorem freshBoard_WF (size : Nat) : (freshBoard size).WF := by
  have h := freshField_WF size
  exact ⟨h.1, h.2⟩

theorem freshBoard_get_cell {size : Nat} {c : Cell}
    (hc : (freshBoard size).inb c = true) :
    (freshBoard size).get_cell c = Except.ok CellState.FREE := by
  unfold Board.get_cell
  rw [hc]
  simp only [if_true, freshBoard, freshField_get]

theorem isNeighbor_symm {c d : Cell} (h : isNeighbor c d) : isNeighbor d c := by
  obtain ⟨hne, h1, h2, h3, h4⟩ := h
  exact ⟨Ne.symm hne, by omega, by omega, by omega, by omega⟩

theorem Board.mem_get_nbhd {b : Board} {c d : Cell} :
    d ∈ b.get_nbhd c AREA_FULL ↔ isNeighbor c d ∧ b.inb d = true := by
  unfold Board.get_nbhd
  rw [List.mem_filterMap]
  constructor
  · rintro ⟨⟨o1, o2⟩, ho, hf⟩
    simp only [areaPairs, AREA_FULL, List.foldr, List.map, List.append_nil,
      List.mem_append, List.mem_cons, List.not_mem_nil, or_false,
      Prod.mk.injEq] at ho
    split_ifs at hf with h00 hib
    have hd : (⟨c.row + o1, c.col + o2⟩ : Cell) = d := Option.some.inj hf
    subst hd
    refine ⟨⟨?_, by simp; omega, by simp; omega, by simp; omega, by simp; omega⟩, hib⟩
    intro he
    have h1 := congrArg Cell.row he
    have h2 := congrArg Cell.col he
    simp at h1 h2
    exact h00 ⟨by omega, by omega⟩
  · rintro ⟨⟨hne, hb1, hb2, hb3, hb4⟩, hib⟩
    refine ⟨(d.row - c.row, d.col - c.col), ?_, ?_⟩
    · simp only [areaPairs, AREA_FULL, List.foldr, List.map, List.append_nil,
        List.mem_append, List.mem_cons, List.not_mem_nil, or_false,
        Prod.mk.injEq]
      omega
    · have hnz : ¬((d.row - c.row : Int) = 0 ∧ (d.col - c.col : Int) = 0) := by
        rintro ⟨e1, e2⟩
        apply hne
        cases c; cases d
        simp_all
        omega
      rw [if_neg hnz]
      have hd : (⟨c.row + (d.row - c.row), c.col + (d.col - c.col)⟩ : Cell) = d := by
        cases d
        simp only [Cell.mk.injEq]
        constructor <;> ring
      rw [hd, if_pos hib]

theorem Board.mem_get_nbhd_v {b : Board} {c d : Cell} :
    d ∈ b.get_nbhd_v c ↔
      ((d = ⟨c.row - 1, c.col⟩ ∨ d = ⟨c.row + 1, c.col⟩) ∧
        0 ≤ d.row ∧ d.row < (b.size : Int)) := by
  unfold Board.get_nbhd_v
  rw [List.mem_filterMap]
  constructor
  · rintro ⟨o, ho, hf⟩
    simp only [List.mem_cons, List.not_mem_nil, or_false] at ho
    split_ifs at hf with hcond
    have hd : (⟨c.row + o, c.col⟩ : Cell) = d := Option.some.inj hf
    subst hd
    rcases ho with rfl | rfl
    · exact ⟨Or.inl rfl, hcond⟩
    · exact ⟨Or.inr rfl, hcond⟩
  · rintro ⟨hor, hb1, hb2⟩
    rcases hor with rfl | rfl
    · have h1 : (0 : Int) ≤ c.row - 1 := hb1
      have h2 : c.row - 1 < (b.size : Int) := hb2
      exact ⟨-1, by simp, by rw [if_pos ⟨by omega, by omega⟩, sub_eq_add_neg]⟩
    · have h1 : (0 : Int) ≤ c.row + 1 := hb1
      have h2 : c.row + 1 < (b.size : Int) := hb2
      exact ⟨1, by simp, by rw [if_pos ⟨by omega, by omega⟩]⟩

theorem Board.mem_get_nbhd_h {b : Board} {c d : Cell} :
    d ∈ b.get_nbhd_h c ↔
      ((d = ⟨c.row, c.col - 1⟩ ∨ d = ⟨c.row, c.col + 1⟩) ∧
        0 ≤ d.col ∧ d.col < (b.size : Int)) := by
  unfold Board.get_nbhd_h
  rw [List.mem_filterMap]
  constructor
  · rintro ⟨o, ho, hf⟩
    simp only [List.mem_cons, List.not_mem_nil, or_false] at ho
    split_ifs at hf with hcond
    have hd : (⟨c.row, c.col + o⟩ : Cell) = d := Option.some.inj hf
    subst hd
    rcases ho with rfl | rfl
    · exact ⟨Or.inl rfl, hcond⟩
    · exact ⟨Or.inr rfl, hcond⟩
  · rintro ⟨hor, hb1, hb2⟩
    rcases hor with rfl | rfl
    · have h1 : (0 : Int) ≤ c.col - 1 := hb1
      have h2 : c.col - 1 < (b.size : Int) := hb2
      exact ⟨-1, by simp, by rw [if_pos ⟨by omega, by omega⟩, sub_eq_add_neg]⟩
    · have h1 : (0 : Int) ≤ c.col + 1 := hb1
      have h2 : c.col + 1 < (b.size : Int) := hb2
      exact ⟨1, by simp, by rw [if_pos ⟨by omega, by omega⟩]⟩

theorem Board.get_cell_congr {b b' : Board} (hs : b'.size = b.size)
    (hf : b'.field = b.field) : b'.get_cell = b.get_cell := by
  funext c
  simp [Board.get_cell, Board.inb, hs, hf]

theorem shotShips_none {c : Cell} {ships : List Ship}
    (h : ∀ s ∈ ships, c ∉ s.cells) : shotShips c ships = (none, ships) := by
  induction ships with
  | nil => rfl
  | cons s rest ih =>
      have hc : c ∉ s.cells := h s (List.mem_cons_self s rest)
      have hrest := ih fun w hw => h w (List.mem_cons_of_mem _ hw)
      simp [shotShips, Ship.hit, Ship.is_hit, hc, hrest]

theorem shotShips_found (c : Cell) (l1 l2 : List Ship) (s : Ship)
    (h1 : ∀ w ∈ l1, c ∉ w.cells) (hs : c ∈ s.cells) :
    (s.cells.erase c = ∅ →
      shotShips c (l1 ++ s :: l2) = (some ShipState.SINK, l1 ++ l2)) ∧
    (s.cells.erase c ≠ ∅ →
      shotShips c (l1 ++ s :: l2) =
        (some ShipState.HIT, l1 ++ ⟨s.cells.erase c⟩ :: l2)) := by
  induction l1 with
  | nil =>
      constructor <;> intro he <;>
        simp [shotShips, Ship.hit, Ship.is_hit, hs, he]
  | cons w rest ih =>
      have hw : c ∉ w.cells := h1 w (List.mem_cons_self w rest)
      have ih' := ih fun x hx => h1 x (List.mem_cons_of_mem _ hx)
      constructor <;> intro he
      · simp [shotShips, Ship.hit, Ship.is_hit, hw, ih'.1 he]
      · simp [shotShips, Ship.hit, Ship.is_hit, hw, ih'.2 he]

theorem Board.shot_already {b : Board} {c : Cell} (h : c ∈ b.shots) :
    b.shot c = (Except.error BoardErr.used, b) := by
  simp [Board.shot, h]

theorem Board.shot_oob {b : Board} {c : Cell} (h : c ∉ b.shots)
    (hib : b.inb c = false) :
    b.shot c =
      (Except.error BoardErr.outOfBoard, { b with shots := insert c b.shots }) := by
  have hg : ({ b with shots := insert c b.shots } : Board).get_cell c =
      Except.error BoardErr.outOfBoard := by
    simp [Board.get_cell, Board.inb] at hib ⊢
    omega
  simp only [Board.shot, if_neg h, hg]

theorem Board.shot_hit_spec {b : Board} {c : Cell} {l1 l2 : List Ship} {s : Ship}
    (hsh : c ∉ b.shots) (hib : b.inb c = true)
    (hships : b.ships = l1 ++ s :: l2)
    (h1 : ∀ w ∈ l1, c ∉ w.cells) (hs : c ∈ s.cells) :
    (s.cells.erase c = ∅ →
      b.shot c = (Except.ok ShipState.SINK,
        Board.upd { b with shots := insert c b.shots, ships := l1 ++ l2 }
          c CellState.WRECK)) ∧
    (s.cells.erase c ≠ ∅ →
      b.shot c = (Except.ok ShipState.HIT,
        Board.upd
          { b with shots := insert c b.shots, ships := l1 ++ ⟨s.cells.erase c⟩ :: l2 }
          c CellState.WRECK)) := by
  have hok : ∃ st, b.get_cell c = Except.ok st := by
    unfold Board.get_cell
    rw [hib]
    exact ⟨_, rfl⟩
  obtain ⟨st, hst⟩ := hok
  have hget : ({ b with shots := insert c b.shots } : Board).get_cell c =
      Except.ok st := hst
  have hget2 : ({ b with shots := insert c b.shots, ships := l1 ++ s :: l2 } :
      Board).get_cell c = Except.ok st := hst
  constructor <;> intro he
  · have hfound := (shotShips_found c l1 l2 s h1 hs).1 he
    simp only [Board.shot, if_neg hsh, hships, hfound, hget2]
  · have hfound := (shotShips_found c l1 l2 s h1 hs).2 he
    simp only [Board.shot, if_neg hsh, hships, hfound, hget2]

theorem Board.shot_miss_spec {b : Board} {c : Cell}
    (hsh : c ∉ b.shots) (hib : b.inb c = true)
    (hmiss : ∀ w ∈ b.ships, c ∉ w.cells) :
    b.shot c = (Except.ok ShipState.MISS,
      Board.upd { b with shots := insert c b.shots } c CellState.MISS) := by
  have hok : ∃ st, b.get_cell c = Except.ok st := by
    unfold Board.get_cell
    rw [hib]
    exact ⟨_, rfl⟩
  obtain ⟨st, hst⟩ := hok
  have hget : ({ b with shots := insert c b.shots } : Board).get_cell c =
      Except.ok st := hst
  have hnone : shotShips c b.ships = (none, b.ships) := shotShips_none hmiss
  simp only [Board.shot, if_neg hsh, hget, hnone]

theorem Board.shot_size (b : Board) (c : Cell) : (b.shot c).2.size = b.size := by
  simp only [Board.shot]
  split
  · rfl
  · split
    · rfl
    · split <;> rfl

theorem Board.shot_WF {b : Board} (h : b.WF) (c : Cell) : (b.shot c).2.WF := by
  simp only [Board.shot]
  split
  · exact h
  · split
    · exact h
    · split <;> exact Board.WF.upd h _ _

theorem mem_sortedCells {m : Multiset Cell} {c : Cell} :
    c ∈ sortedCells m ↔ c ∈ m := by
  induction m using Quotient.inductionOn with
  | h l =>
      show c ∈ List.insertionSort cellLe l ↔ c ∈ (l : Multiset Cell)
      rw [(List.perm_insertionSort cellLe l).mem_iff]
      simp

theorem Ship.mem_cellList {s : Ship} {c : Cell} : c ∈ s.cellList ↔ c ∈ s.cells :=
  mem_sortedCells

theorem Board.check_ship_cell_ok_iff {b : Board} {cell : Cell} :
    b.check_ship_cell cell = Except.ok () ↔
      b.get_cell cell = Except.ok CellState.FREE ∧
        ((b.get_nbhd cell AREA_FULL).any fun n => b.isShipAt n) = false := by
  unfold Board.check_ship_cell
  cases hge : b.get_cell cell with
  | error e => simp
  | ok st =>
      by_cases hfree : st = CellState.FREE
      · subst hfree
        by_cases hany : ((b.get_nbhd cell AREA_FULL).any fun n => b.isShipAt n) = true
        · simp [hany]
        · simp [hany, Bool.not_eq_true]
      · simp [hfree]

theorem Board.check_ship_cell_cases {b : Board} {cell : Cell}
    (hin : b.inb cell = true) :
    b.check_ship_cell cell = Except.ok () ∨
      b.check_ship_cell cell = Except.error BoardErr.shipPlacement := by
  have hok : ∃ st, b.get_cell cell = Except.ok st := by
    unfold Board.get_cell
    rw [hin]
    exact ⟨_, rfl⟩
  obtain ⟨st, hst⟩ := hok
  unfold Board.check_ship_cell
  rw [hst]
  by_cases hfree : st = CellState.FREE
  · subst hfree
    by_cases hany : ((b.get_nbhd cell AREA_FULL).any fun n => b.isShipAt n) = true
    · simp [hany]
    · simp [hany, Bool.not_eq_true]
  · simp [hfree]

theorem Board.check_ship_ok_iff {b : Board} {cells : List Cell} :
    b.check_ship cells = Except.ok () ↔
      ∀ cell ∈ cells, b.check_ship_cell cell = Except.ok () := by
  induction cells with
  | nil => simp [Board.check_ship]
  | cons cell rest ih =>
      unfold Board.check_ship
      cases hc : b.check_ship_cell cell with
      | error e => simp [hc]
      | ok u =>
          cases u
          simp [hc, ih]

theorem Board.check_ship_cases {b : Board} {cells : List Cell}
    (hin : ∀ cell ∈ cells, b.inb cell = true) :
    b.check_ship cells = Except.ok () ∨
      b.check_ship cells = Except.error BoardErr.shipPlacement := by
  induction cells with
  | nil => exact Or.inl rfl
  | cons cell rest ih =>
      have hih := ih fun c hc => hin c (List.mem_cons_of_mem _ hc)
      unfold Board.check_ship
      rcases Board.check_ship_cell_cases (hin cell (List.mem_cons_self _ _)) with h | h
      · rw [h]
        exact hih
      · rw [h]
        exact Or.inr rfl

theorem Board.mark_cells_spec {cells : List Cell} {b : Board} (hwf : b.WF)
    (hin : ∀ c ∈ cells, b.inb c = true) :
    (b.mark_cells cells).1 = Except.ok () ∧
    (b.mark_cells cells).2.size = b.size ∧
    (b.mark_cells cells).2.shots = b.shots ∧
    (b.mark_cells cells).2.ships = b.ships ∧
    (b.mark_cells cells).2.WF ∧
    (∀ d ∈ cells, (b.mark_cells cells).2.get_cell d = Except.ok CellState.SHIP) ∧
    (∀ d, d ∉ cells → (b.mark_cells cells).2.get_cell d = b.get_cell d) := by
  induction cells generalizing b with
  | nil => exact ⟨rfl, rfl, rfl, rfl, hwf, by simp, fun d hd => rfl⟩
  | cons cell rest ih =>
      have hcell : b.inb cell = true := hin cell (List.mem_cons_self _ _)
      have hset : b.set_cell cell CellState.SHIP =
          Except.ok (b.upd cell CellState.SHIP) := by
        simp [Board.set_cell, hcell]
      have hwf' : (b.upd cell CellState.SHIP).WF := hwf.upd cell _
      have hin' : ∀ c ∈ rest, (b.upd cell CellState.SHIP).inb c = true := by
        intro c hc
        rw [Board.upd_inb]
        exact hin c (List.mem_cons_of_mem _ hc)
      obtain ⟨h1, h2, h3, h4, h5, h6, h7⟩ := ih hwf' hin'
      have hunf : b.mark_cells (cell :: rest) =
          (b.upd cell CellState.SHIP).mark_cells rest := by
        show (match b.set_cell cell CellState.SHIP with
          | Except.ok b' => b'.mark_cells rest
          | Except.error e => (Except.error e, b)) =
            (b.upd cell CellState.SHIP).mark_cells rest
        rw [hset]
      rw [hunf]
      refine ⟨h1, by rw [h2]; rfl, by rw [h3]; rfl, by rw [h4]; rfl, h5, ?_, ?_⟩
      · intro d hd
        by_cases hdr : d ∈ rest
        · exact h6 d hdr
        · have hdc : d = cell := by
            rcases List.mem_cons.mp hd with h | h
            · exact h
            · exact absurd h hdr
          subst hdc
          rw [h7 d hdr]
          exact Board.get_cell_upd_self _ hwf hcell
      · intro d hd
        have hdc : d ≠ cell := fun h => hd (h ▸ List.mem_cons_self _ _)
        have hdr : d ∉ rest := fun h => hd (List.mem_cons_of_mem _ h)
        rw [h7 d hdr]
        exact Board.get_cell_upd_ne _ hwf hcell hdc

theorem Board.add_ship_err {b : Board} {ship : Ship} {e : BoardErr}
    (h : b.check_ship ship.cellList = Except.error e) :
    b.add_ship ship = (Except.error e, b) := by
  unfold Board.add_ship
  rw [h]

theorem Board.add_ship_ok_spec {b : Board} {ship : Ship} (hwf : b.WF)
    (hchk : b.check_ship ship.cellList = Except.ok ()) :
    (b.add_ship ship).1 = Except.ok () ∧
    (b.add_ship ship).2.size = b.size ∧
    (b.add_ship ship).2.shots = b.shots ∧
    (b.add_ship ship).2.ships = b.ships ++ [ship] ∧
    (b.add_ship ship).2.WF ∧
    (∀ d ∈ ship.cells, (b.add_ship ship).2.get_cell d = Except.ok CellState.SHIP) ∧
    (∀ d, d ∉ ship.cells → (b.add_ship ship).2.get_cell d = b.get_cell d) := by
  have hin : ∀ c ∈ ship.cellList, b.inb c = true := by
    intro c hc
    exact Board.get_cell_ok_inb
      (Board.check_ship_cell_ok_iff.mp (Board.check_ship_ok_iff.mp hchk c hc)).1
  have hwf1 : ({ b with ships := b.ships ++ [ship] } : Board).WF := hwf
  have hin1 : ∀ c ∈ ship.cellList,
      ({ b with ships := b.ships ++ [ship] } : Board).inb c = true := hin
  obtain ⟨h1, h2, h3, h4, h5, h6, h7⟩ := Board.mark_cells_spec hwf1 hin1
  have hunf : b.add_ship ship =
      ({ b with ships := b.ships ++ [ship] } : Board).mark_cells ship.cellList := by
    unfold Board.add_ship
    rw [hchk]
  rw [hunf]
  refine ⟨h1, by rw [h2], by rw [h3], by rw [h4], h5, ?_, ?_⟩
  · intro d hd
    exact h6 d (Ship.mem_cellList.mpr hd)
  · intro d hd
    rw [h7 d fun h => hd (Ship.mem_cellList.mp h)]
    exact congrFun (Board.get_cell_congr rfl rfl) d

theorem shipsApart_pairwise_replace {l1 l2 : List Ship} {s s' : Ship}
    (hsub : ∀ c ∈ s'.cells, c ∈ s.cells)
    (h : List.Pairwise ShipsApart (l1 ++ s :: l2)) :
    List.Pairwise ShipsApart (l1 ++ s' :: l2) := by
  rw [List.pairwise_append] at h ⊢
  obtain ⟨hp1, hp2, hcross⟩ := h
  rw [List.pairwise_cons] at hp2 ⊢
  refine ⟨hp1, ⟨fun t ht c hc d hd => hp2.1 t ht c (hsub c hc) d hd, hp2.2⟩, ?_⟩
  intro a ha t ht
  rcases List.mem_cons.mp ht with rfl | ht2
  · intro c hc d hd
    exact hcross a ha s (List.mem_cons_self _ _) c hc d (hsub d hd)
  · exact hcross a ha t (List.mem_cons_of_mem _ ht2)

theorem shipsApart_of_pairwise_middle {l1 l2 : List Ship} {s : Ship} {c : Cell}
    (h : List.Pairwise ShipsApart (l1 ++ s :: l2)) (hs : c ∈ s.cells) :
    ∀ w ∈ l1 ++ l2, c ∉ w.cells := by
  rw [List.pairwise_append] at h
  obtain ⟨hp1, hp2, hcross⟩ := h
  intro w hw hcw
  rcases List.mem_append.mp hw with hw1 | hw2
  · exact (hcross w hw1 s (List.mem_cons_self _ _) c hcw c hs).1 rfl
  · rw [List.pairwise_cons] at hp2
    exact (hp2.1 w hw2 c hs c hcw).1 rfl

theorem shotShips_decomp (c : Cell) (ships : List Ship) :
    ((∀ s ∈ ships, c ∉ s.cells) ∧ shotShips c ships = (none, ships)) ∨
    (∃ l1 s l2, ships = l1 ++ s :: l2 ∧ (∀ w ∈ l1, c ∉ w.cells) ∧ c ∈ s.cells) := by
  induction ships with
  | nil => exact Or.inl ⟨by simp, rfl⟩
  | cons s rest ih =>
      by_cases hc : c ∈ s.cells
      · exact Or.inr ⟨[], s, rest, rfl, by simp, hc⟩
      · rcases ih with ⟨hall, heq⟩ | ⟨l1, t, l2, hrest, h1, ht⟩
        · left
          constructor
          · intro w hw
            rcases List.mem_cons.mp hw with rfl | hw2
            · exact hc
            · exact hall w hw2
          · simp [shotShips, Ship.hit, Ship.is_hit, hc, heq]
        · right
          refine ⟨s :: l1, t, l2, by rw [hrest]; rfl, ?_, ht⟩
          intro w hw
          rcases List.mem_cons.mp hw with rfl | hw2
          · exact hc
          · exact h1 w hw2

theorem Board.init_Inv {size : Nat} {b : Board}
    (h : Board.init size = Except.ok b) : b.Inv := by
  unfold Board.init at h
  split_ifs at h
  cases h
  have hf := freshField_WF size
  exact ⟨⟨hf.1, hf.2⟩, by simp, by simp⟩

theorem Board.Inv.add_ship {b : Board} (h : b.Inv) (ship : Ship) :
    (b.add_ship ship).2.Inv := by
  obtain ⟨hwf, hmark, hpair⟩ := h
  cases hchk : b.check_ship ship.cellList with
  | error e =>
      rw [Board.add_ship_err hchk]
      exact ⟨hwf, hmark, hpair⟩
  | ok u =>
      cases u
      obtain ⟨h1, h2, h3, h4, h5, h6, h7⟩ := Board.add_ship_ok_spec hwf hchk
      refine ⟨h5, ?_, ?_⟩
      · intro s hs c hc
        rw [h4] at hs
        rcases List.mem_append.mp hs with hs1 | hs2
        · by_cases hcs : c ∈ ship.cells
          · exact h6 c hcs
          · rw [h7 c hcs]
            exact hmark s hs1 c hc
        · have hss : s = ship := by simpa using hs2
          subst hss
          exact h6 c hc
      · rw [h4, List.pairwise_append]
        refine ⟨hpair, List.pairwise_singleton _ _, ?_⟩
        intro s hs t ht
        have htt : t = ship := by simpa using ht
        subst htt
        intro c hc d hd
        have hcS : b.get_cell c = Except.ok CellState.SHIP := hmark s hs c hc
        have hdchk :=
          Board.check_ship_cell_ok_iff.mp
            (Board.check_ship_ok_iff.mp hchk d (Ship.mem_cellList.mpr hd))
        constructor
        · intro hcd
          rw [hcd, hdchk.1] at hcS
          exact absurd hcS (by simp)
        · intro hnb
          have hcin : b.inb c = true := Board.get_cell_ok_inb hcS
          have hcmem : c ∈ b.get_nbhd d AREA_FULL :=
            Board.mem_get_nbhd.mpr ⟨isNeighbor_symm hnb, hcin⟩
          have hfalse := List.any_eq_false.mp hdchk.2 c hcmem
          exact hfalse (Board.isShipAt_iff.mpr hcS)

theorem Board.Inv.shot {b : Board} (h : b.Inv) (c : Cell) : (b.shot c).2.Inv := by
  obtain ⟨hwf, hmark, hpair⟩ := h
  by_cases hsh : c ∈ b.shots
  · rw [Board.shot_already hsh]
    exact ⟨hwf, hmark, hpair⟩
  by_cases hib : b.inb c = true
  · rcases shotShips_decomp c b.ships with ⟨hall, _⟩ | ⟨l1, s, l2, hships, h1, hs⟩
    · rw [Board.shot_miss_spec hsh hib hall]
      refine ⟨Board.WF.upd hwf c _, ?_, ?_⟩
      · intro w hw cc hcc
        have hwb : w ∈ b.ships := hw
        have hccne : cc ≠ c := fun hx => (hall w hwb) (hx ▸ hcc)
        have := @Board.get_cell_upd_ne
          { b with shots := insert c b.shots } c cc CellState.MISS hwf hib hccne
        rw [this]
        exact hmark w hwb cc hcc
      · exact hpair
    · have hconly : ∀ w ∈ l1 ++ l2, c ∉ w.cells := by
        rw [hships] at hpair
        exact shipsApart_of_pairwise_middle hpair hs
      have hmark' : ∀ w ∈ l1 ++ s :: l2, ∀ cc ∈ w.cells,
          b.get_cell cc = Except.ok CellState.SHIP := by
        rw [hships] at hmark
        exact hmark
      have hpair' : List.Pairwise ShipsApart (l1 ++ s :: l2) := by
        rw [hships] at hpair
        exact hpair
      by_cases he : s.cells.erase c = ∅
      · rw [(Board.shot_hit_spec hsh hib hships h1 hs).1 he]
        refine ⟨Board.WF.upd hwf c _, ?_, ?_⟩
        · intro w hw cc hcc
          have hwb : w ∈ l1 ++ l2 := hw
          have hccne : cc ≠ c := fun hx => (hconly w hwb) (hx ▸ hcc)
          have := @Board.get_cell_upd_ne
            { b with shots := insert c b.shots, ships := l1 ++ l2 } c cc
            CellState.WRECK hwf hib hccne
          rw [this]
          refine hmark' w ?_ cc hcc
          rcases List.mem_append.mp hwb with h' | h'
          · exact List.mem_append.mpr (Or.inl h')
          · exact List.mem_append.mpr (Or.inr (List.mem_cons_of_mem _ h'))
        · show List.Pairwise ShipsApart (l1 ++ l2)
          exact hpair'.sublist (List.Sublist.append_left (List.sublist_cons_self s l2) l1)
      · rw [(Board.shot_hit_spec hsh hib hships h1 hs).2 he]
        refine ⟨Board.WF.upd hwf c _, ?_, ?_⟩
        · intro w hw cc hcc
          have hwb : w ∈ l1 ++ (⟨s.cells.erase c⟩ : Ship) :: l2 := hw
          have hccb : cc ≠ c ∧ ∃ w' ∈ l1 ++ s :: l2, cc ∈ w'.cells := by
            rcases List.mem_append.mp hwb with h' | h'
            · refine ⟨fun hx => (hconly w (List.mem_append.mpr (Or.inl h'))) (hx ▸ hcc),
                w, List.mem_append.mpr (Or.inl h'), hcc⟩
            · rcases List.mem_cons.mp h' with rfl | h''
              · exact ⟨Finset.ne_of_mem_erase hcc,
                  s, List.mem_append.mpr (Or.inr (List.mem_cons_self _ _)),
                  Finset.mem_of_mem_erase hcc⟩
              · refine ⟨fun hx => (hconly w (List.mem_append.mpr (Or.inr h''))) (hx ▸ hcc),
                  w, List.mem_append.mpr (Or.inr (List.mem_cons_of_mem _ h'')), hcc⟩
          obtain ⟨hccne, w', hw', hcc'⟩ := hccb
          have := @Board.get_cell_upd_ne
            { b with shots := insert c b.shots, ships := l1 ++ (⟨s.cells.erase c⟩ : Ship) :: l2 }
            c cc CellState.WRECK hwf hib hccne
          rw [this]
          exact hmark' w' hw' cc hcc'
        · show List.Pairwise ShipsApart (l1 ++ (⟨s.cells.erase c⟩ : Ship) :: l2)
          exact shipsApart_pairwise_replace
            (fun x hx => Finset.mem_of_mem_erase hx) hpair'
  · have hib' : b.inb c = false := by simpa using hib
    rw [Board.shot_oob hsh hib']
    exact ⟨hwf, hmark, hpair⟩

theorem reachable_inv {b : Board} (h : Reachable b) : b.Inv := by
  induction h with
  | init size b hb => exact Board.init_Inv hb
  | add_ship b ship _ ih => exact ih.add_ship ship
  | shot b cell _ ih => exact ih.shot cell

theorem randint_bounds (a b : Int) (g : Rng) (h : a ≤ b) :
    a ≤ (randint a b g).1 ∧ (randint a b g).1 ≤ b := by
  unfold randint Rng.next
  rw [if_neg (not_lt.mpr h)]
  have h1 : (0 : Int) ≤ (g.stream g.pos : Int) % (b - a + 1) :=
    Int.emod_nonneg _ (by omega)
  have h2 : (g.stream g.pos : Int) % (b - a + 1) < b - a + 1 :=
    Int.emod_lt_of_pos _ (by omega)
  dsimp only
  constructor <;> omega

theorem buildCells_mem {row col orientation : Int} {n : Nat} {c : Cell}
    (h : c ∈ buildCells row col orientation n) :
    (orientation ≠ 0 → row ≤ c.row ∧ c.row < row + n ∧ c.col = col) ∧
    (orientation = 0 → c.row = row ∧ col ≤ c.col ∧ c.col < col + n) := by
  induction n generalizing row col with
  | zero => cases h
  | succ k ih =>
      unfold buildCells at h
      rcases List.mem_cons.mp h with rfl | h2
      · constructor
        · intro _
          refine ⟨le_refl _, ?_, rfl⟩
          dsimp only
          omega
        · intro _
          refine ⟨rfl, le_refl _, ?_⟩
          dsimp only
          omega
      · by_cases ho : orientation ≠ 0
        · rw [if_pos ho] at h2
          obtain ⟨ha, hb, hc2⟩ := (ih h2).1 ho
          exact ⟨fun _ => ⟨by omega, by omega, hc2⟩, fun h0 => absurd h0 ho⟩
        · rw [if_neg ho] at h2
          push_neg at ho
          obtain ⟨ha, hb, hc2⟩ := (ih h2).2 ho
          exact ⟨fun hne => absurd ho hne, fun _ => ⟨ha, by omega, by omega⟩⟩

theorem mem_foldl_add_cell {l : List Cell} {s : Ship} {x : Cell} :
    x ∈ (l.foldl Ship.add_cell s).cells ↔ x ∈ l ∨ x ∈ s.cells := by
  induction l generalizing s with
  | nil => simp
  | cons a t ih =>
      simp only [List.foldl_cons, ih, Ship.add_cell, Finset.mem_insert,
        List.mem_cons]
      tauto

theorem build_ship_inb (ship_size : Nat) (b : Board) (g : Rng)
    (hn : ship_size ≤ b.size) :
    ∀ c ∈ (ShipFactory.build_ship ship_size b.size g).1.cells, b.inb c = true := by
  intro c hc
  unfold ShipFactory.build_ship at hc
  rw [mem_foldl_add_cell] at hc
  rcases hc with hc | hc
  swap
  · simp at hc
  obtain ⟨hr1, hr2⟩ := randint_bounds 0 ((b.size : Int) - ship_size) g (by omega)
  obtain ⟨hc1, hc2⟩ := randint_bounds 0 ((b.size : Int) - ship_size)
    (randint 0 ((b.size : Int) - ship_size) g).2 (by omega)
  by_cases ho : (randint 0 1
      (randint 0 ((b.size : Int) - ship_size)
        (randint 0 ((b.size : Int) - ship_size) g).2).2).1 ≠ 0
  · obtain ⟨ha, hb2, hc3⟩ := (buildCells_mem hc).1 ho
    rw [Board.inb_iff]
    omega
  · push_neg at ho
    obtain ⟨ha, hb2, hc3⟩ := (buildCells_mem hc).2 ho
    rw [Board.inb_iff]
    omega

theorem placeOne_spec (tries : Nat) (b : Board) (n : Nat) (g : Rng)
    (hwf : b.WF) (hn : n ≤ b.size) :
    (placeOne tries b n g).1 = Except.ok none ∨
    ∃ b1, (placeOne tries b n g).1 = Except.ok (some b1) ∧
      b1.size = b.size ∧ b1.WF ∧ b1.ships.length = b.ships.length + 1 := by
  induction tries generalizing g with
  | zero => exact Or.inl rfl
  | succ k ih =>
      have hinb := build_ship_inb n b g hn
      have hinl : ∀ c ∈ (ShipFactory.build_ship n b.size g).1.cellList,
          b.inb c = true := fun c hc => hinb c (Ship.mem_cellList.mp hc)
      simp only [placeOne]
      rcases Board.check_ship_cases hinl with hchk | hchk
      · obtain ⟨h1, h2, h3, h4, h5, h6, h7⟩ := Board.add_ship_ok_spec hwf hchk
        rcases hadd : b.add_ship (ShipFactory.build_ship n b.size g).1 with ⟨res, b1⟩
        rw [hadd] at h1 h2 h4 h5
        simp only at h1 h2 h4 h5
        subst h1
        right
        refine ⟨b1, rfl, h2, h5, ?_⟩
        rw [h4]
        simp
      · rw [Board.add_ship_err hchk]
        exact ih (ShipFactory.build_ship n b.size g).2

theorem placeRow_spec (ship_set : List Nat) (b : Board) (g : Rng)
    (hwf : b.WF) (hn : ∀ n ∈ ship_set, n ≤ b.size) :
    ∃ b1, (placeRow b ship_set g).1 = Except.ok b1 ∧ b1.size = b.size ∧ b1.WF := by
  induction ship_set generalizing b g with
  | nil => exact ⟨b, rfl, rfl, hwf⟩
  | cons n rest ih =>
      simp only [placeRow]
      rcases placeOne_spec 1000 b n g hwf (hn n (List.mem_cons_self _ _)) with
        hone | ⟨b1, hone, hsz, hwf1, _⟩
      · rcases hp : placeOne 1000 b n g with ⟨res, g1⟩
        rw [hp] at hone
        simp only at hone
        subst hone
        exact ⟨b.clear, rfl, rfl, b.clear_WF⟩
      · rcases hp : placeOne 1000 b n g with ⟨res, g1⟩
        rw [hp] at hone
        simp only at hone
        subst hone
        obtain ⟨b2, hb2, hsz2, hwf2⟩ :=
          ih b1 g1 hwf1 (fun m hm => by rw [hsz]; exact hn m (List.mem_cons_of_mem _ hm))
        exact ⟨b2, hb2, by rw [hsz2, hsz], hwf2⟩

theorem placeLoop_spec (rounds : Nat) (b : Board) (ship_set : List Nat) (g : Rng)
    (hwf : b.WF) (hn : ∀ n ∈ ship_set, n ≤ b.size) :
    (∀ e, (placeLoop rounds b ship_set g).1 = Except.error e →
      e = BoardErr.shipPlacement) ∧
    (∀ b', (placeLoop rounds b ship_set g).1 = Except.ok b' →
      b'.ships.length = SHIP_SET.length) := by
  induction rounds generalizing b g with
  | zero =>
      constructor
      · intro e he
        cases he
        rfl
      · intro b' hb
        cases hb
  | succ k ih =>
      obtain ⟨b1, hb1, hsz, hwf1⟩ := placeRow_spec ship_set b g hwf hn
      have hpair : placeRow b ship_set g =
          (Except.ok b1, (placeRow b ship_set g).2) := by
        rcases hp : placeRow b ship_set g with ⟨res, g1⟩
        rw [hp] at hb1
        simp only at hb1
        rw [hb1]
      have hunf : placeLoop (k + 1) b ship_set g =
          (if b1.ships.length = SHIP_SET.length
           then (Except.ok b1, (placeRow b ship_set g).2)
           else placeLoop k b1 ship_set (placeRow b ship_set g).2) := by
        have hstep : placeLoop (k + 1) b ship_set g =
            (match placeRow b ship_set g with
             | (Except.ok board1, g1) =>
                 if board1.ships.length = SHIP_SET.length then (Except.ok board1, g1)
                 else placeLoop k board1 ship_set g1
             | (Except.error e, g1) => (Except.error e, g1)) := rfl
        rw [hstep, hpair]
      rw [hunf]
      by_cases hlen : b1.ships.length = SHIP_SET.length
      · rw [if_pos hlen]
        constructor
        · intro e he
          cases he
        · intro b' hb
          cases hb
          exact hlen
      · rw [if_neg hlen]
        exact ih b1 (placeRow b ship_set g).2 hwf1 fun m hm => by
          rw [hsz]
          exact hn m hm

theorem mem_list_union {l1 l2 : List Cell} {x : Cell} :
    x ∈ l1.union l2 ↔ x ∈ l1 ∨ x ∈ l2 :=
  List.mem_union_iff

theorem Robot.random_hit_spec {r : Robot} {fuel : Nat} {g g' : Rng} {c : Cell}
    (h : r.random_hit fuel g = (some c, g')) :
    c ∉ r.move_list ∧
      ∀ cell ∈ r.enemy_board.get_nbhd c AREA_FULL,
        r.enemy_board.isWreckAt cell = false := by
  induction fuel generalizing g with
  | zero => simp [Robot.random_hit] at h
  | succ k ih =>
      simp only [Robot.random_hit] at h
      split_ifs at h with h1 h2
      · exact ih h
      · exact ih h
      · have hc : (⟨(randint 0 ((r.board_size : Int) - 1) g).1,
            (randint 0 ((r.board_size : Int) - 1)
              (randint 0 ((r.board_size : Int) - 1) g).2).1⟩ : Cell) = c := by
          have h3 := congrArg Prod.fst h
          simpa using h3
        subst hc
        rw [Bool.not_eq_true] at h2
        refine ⟨h1, ?_⟩
        intro cell hcell
        have h4 := List.any_eq_false.mp h2 cell hcell
        simpa using h4

theorem mem_foldl_union {f : Cell → List Cell} {l : List Cell}
    {init : List Cell} {x : Cell} :
    x ∈ l.foldl (fun nbhd cell => nbhd.union (f cell)) init ↔
      x ∈ init ∨ ∃ h ∈ l, x ∈ f h := by
  induction l generalizing init with
  | nil => simp
  | cons a t ih =>
      simp only [List.foldl_cons, ih, mem_list_union, List.mem_cons]
      constructor
      · rintro ((hx | hx) | ⟨h, hh, hx⟩)
        · exact Or.inl hx
        · exact Or.inr ⟨a, Or.inl rfl, hx⟩
        · exact Or.inr ⟨h, Or.inr hh, hx⟩
      · rintro (hx | ⟨h, rfl | hh, hx⟩)
        · exact Or.inl (Or.inl hx)
        · exact Or.inl (Or.inr hx)
        · exact Or.inr ⟨h, hh, hx⟩

theorem Robot.chase_nbhd_single {r : Robot} {h0 : Cell} (hh : r.hits = [h0])
    {c : Cell} :
    c ∈ r.chase_nbhd ↔
      c ∈ r.enemy_board.get_nbhd_v h0 ∨ c ∈ r.enemy_board.get_nbhd_h h0 := by
  unfold Robot.chase_nbhd
  rw [hh]
  exact mem_list_union

theorem Robot.chase_nbhd_multi {r : Robot} {h0 h1 : Cell} {rest : List Cell}
    (hh : r.hits = h0 :: h1 :: rest) {c : Cell} :
    c ∈ r.chase_nbhd ↔
      ∃ h ∈ r.hits,
        c ∈ (if h0.row - h1.row ≠ 0 then r.enemy_board.get_nbhd_v h
             else r.enemy_board.get_nbhd_h h) := by
  unfold Robot.chase_nbhd
  rw [hh]
  rw [mem_foldl_union]
  simp [hh]

theorem shootSeq_sink :
    ∀ (cs : List Cell) (b : Board) (l1 l2 : List Ship) (s : Ship),
    b.WF → b.ships = l1 ++ s :: l2 → cs ≠ [] → cs.Nodup →
    cs.toFinset = s.cells →
    (∀ c ∈ cs, b.inb c = true ∧ c ∉ b.shots) →
    (∀ w ∈ l1 ++ l2, ∀ c ∈ cs, c ∉ w.cells) →
    (shootSeq b cs).1 =
      List.replicate (cs.length - 1) (Except.ok ShipState.HIT) ++
        [Except.ok ShipState.SINK] ∧
    (shootSeq b cs).2.ships = l1 ++ l2 := by
  intro cs
  induction cs with
  | nil =>
      intro b l1 l2 s _ _ hne
      exact absurd rfl hne
  | cons c rest ih =>
      intro b l1 l2 s hwf hships hne hnodup htof hok hdisj
      have hs : c ∈ s.cells := by
        rw [← htof]
        simp
      have h1 : ∀ w ∈ l1, c ∉ w.cells := fun w hw =>
        hdisj w (List.mem_append.mpr (Or.inl hw)) c (List.mem_cons_self _ _)
      have hcin := (hok c (List.mem_cons_self _ _)).1
      have hcsh := (hok c (List.mem_cons_self _ _)).2
      rcases rest with _ | ⟨c2, rest2⟩
      · have hcells : s.cells = {c} := by
          rw [← htof]
          simp
        have herase : s.cells.erase c = ∅ := by
          rw [hcells]
          simp
        have hshot := (Board.shot_hit_spec hcsh hcin hships h1 hs).1 herase
        constructor
        · simp [shootSeq, hshot]
        · simp [shootSeq, hshot]
      · have hcnr : c ∉ c2 :: rest2 := (List.nodup_cons.mp hnodup).1
        have herase : s.cells.erase c = (c2 :: rest2).toFinset := by
          rw [← htof, List.toFinset_cons]
          exact Finset.erase_insert (by simpa using hcnr)
        have hereneq : s.cells.erase c ≠ ∅ := by
          rw [herase]
          simp
        have hshot := (Board.shot_hit_spec hcsh hcin hships h1 hs).2 hereneq
        have hres : (b.shot c).1 = Except.ok ShipState.HIT := congrArg Prod.fst hshot
        have hb2 : (b.shot c).2 = Board.upd { b with shots := insert c b.shots, ships := l1 ++ (⟨s.cells.erase c⟩ : Ship) :: l2 } c CellState.WRECK :=
          congrArg Prod.snd hshot
        have hwf2 : (b.shot c).2.WF := Board.shot_WF hwf c
        have hships2 : (b.shot c).2.ships =
            l1 ++ (⟨s.cells.erase c⟩ : Ship) :: l2 := by
          rw [hb2]
          rfl
        have hshots2 : (b.shot c).2.shots = insert c b.shots := by
          rw [hb2]
          rfl
        have hinb2 : ∀ x, (b.shot c).2.inb x = b.inb x := by
          intro x
          unfold Board.inb
          rw [Board.shot_size]
        have hok2 : ∀ x ∈ c2 :: rest2,
            (b.shot c).2.inb x = true ∧ x ∉ (b.shot c).2.shots := by
          intro x hx
          have hxo := hok x (List.mem_cons_of_mem _ hx)
          refine ⟨by rw [hinb2]; exact hxo.1, ?_⟩
          rw [hshots2]
          intro hmem
          rcases Finset.mem_insert.mp hmem with rfl | hmem2
          · exact hcnr hx
          · exact hxo.2 hmem2
        have hdisj2 : ∀ w ∈ l1 ++ l2, ∀ x ∈ c2 :: rest2, x ∉ w.cells :=
          fun w hw x hx => hdisj w hw x (List.mem_cons_of_mem _ hx)
        have htof2 : (c2 :: rest2).toFinset =
            (⟨s.cells.erase c⟩ : Ship).cells := herase.symm
        obtain ⟨ihr, ihs⟩ := ih (b.shot c).2 l1 l2 (⟨s.cells.erase c⟩ : Ship)
          hwf2 hships2 (by simp) (List.nodup_cons.mp hnodup).2 htof2 hok2 hdisj2
        constructor
        · show ((b.shot c).1 :: (shootSeq (b.shot c).2 (c2 :: rest2)).1) = _
          rw [hres, ihr]
          simp [List.replicate_succ]
        · show (shootSeq (b.shot c).2 (c2 :: rest2)).2.ships = l1 ++ l2
          exact ihs

/-- C1, counterexample to the claim as stated: on a fresh 6×6 board the
off-grid shot (7,0) is rejected with OutOfBounds, yet the coordinate lands
in the shots set — a rejected Shoot does mutate shots, because Board.shot
inserts into shots before running its bounds check. -/
theorem shot_rejected_cex :
    (board6.shot ⟨7, 0⟩).1 = Except.error BoardErr.outOfBoard ∧
    (board6.shot ⟨7, 0⟩).2.shots ≠ board6.shots := by
  constructor
  · rfl
  · decide

/-- C1, amended: a Shoot rejected with AlreadyShot leaves the grid fully
unchanged; a Shoot rejected with OutOfBounds leaves the cell states and
the vessel set unchanged but records the off-grid coordinate in shots (the
insertion precedes the bounds check); in either case the Match turn does
not advance — the game loop keeps the same side active. -/
theorem shot_rejected_amended (b : Board) (c : Cell) (pg : Nat) :
    (c ∈ b.shots → b.shot c = (Except.error BoardErr.used, b)) ∧
    (c ∉ b.shots → b.inb c = false →
      b.shot c =
        (Except.error BoardErr.outOfBoard,
          { b with shots := insert c b.shots })) ∧
    (∀ e, (b.shot c).1 = Except.error e →
      (b.shot c).2.field = b.field ∧ (b.shot c).2.ships = b.ships ∧
        (Game.start_step b c pg).2.2 = pg) := by
  refine ⟨fun h => Board.shot_already h, fun h hib => Board.shot_oob h hib, ?_⟩
  intro e he
  by_cases hsh : c ∈ b.shots
  · rw [Board.shot_already hsh]
    refine ⟨rfl, rfl, ?_⟩
    unfold Game.start_step
    rw [Board.shot_already hsh]
  · by_cases hib : b.inb c = true
    · exfalso
      rcases shotShips_decomp c b.ships with ⟨hall, _⟩ | ⟨l1, s, l2, hships, h1, hs⟩
      · rw [Board.shot_miss_spec hsh hib hall] at he
        simp at he
      · by_cases hem : s.cells.erase c = ∅
        · rw [(Board.shot_hit_spec hsh hib hships h1 hs).1 hem] at he
          simp at he
        · rw [(Board.shot_hit_spec hsh hib hships h1 hs).2 hem] at he
          simp at he
    · have hib' : b.inb c = false := by simpa using hib
      rw [Board.shot_oob hsh hib']
      refine ⟨rfl, rfl, ?_⟩
      unfold Game.start_step
      rw [Board.shot_oob hsh hib']

/-- Witness for the amended C1 theorem at the concrete off-grid input. -/
theorem shot_rejected_amended_witness :
    (⟨7, 0⟩ : Cell) ∉ board6.shots ∧ board6.inb ⟨7, 0⟩ = false ∧
    board6.shot ⟨7, 0⟩ =
      (Except.error BoardErr.outOfBoard,
        { board6 with shots := insert ⟨7, 0⟩ board6.shots }) ∧
    (Game.start_step board6 ⟨7, 0⟩ 0).2.2 = 0 :=
  ⟨by decide, by decide,
    (shot_rejected_amended board6 ⟨7, 0⟩ 0).2.1 (by decide) (by decide),
    ((shot_rejected_amended board6 ⟨7, 0⟩ 0).2.2 BoardErr.outOfBoard rfl).2.2⟩

/-- C2: on every grid reachable by any sequence of add_ship and shot calls,
any two distinct live vessels have disjoint coordinate sets, and no
coordinate of one is an 8-neighbour of a coordinate of the other. -/
theorem reachable_ships_apart (b : Board) (h : Reachable b) :
    ∀ s ∈ b.ships, ∀ t ∈ b.ships, s ≠ t →
      ∀ c ∈ s.cells, ∀ d ∈ t.cells, c ≠ d ∧ ¬ isNeighbor c d := by
  have hinv := reachable_inv h
  have hsymm : Symmetric ShipsApart := by
    intro s t hst c hc d hd
    obtain ⟨hne, hnb⟩ := hst d hd c hc
    exact ⟨Ne.symm hne, fun hx => hnb (isNeighbor_symm hx)⟩
  intro s hs t ht hst
  exact List.Pairwise.forall hsymm hinv.2.2 hs ht hst

/-- Witness for C2 on a reachable 4×4 board carrying two one-cell ships. -/
theorem reachable_ships_apart_witness :
    shipC2a ∈ boardC2.ships ∧ shipC2b ∈ boardC2.ships ∧ shipC2a ≠ shipC2b ∧
    (⟨0, 0⟩ : Cell) ∈ shipC2a.cells ∧ (⟨2, 2⟩ : Cell) ∈ shipC2b.cells ∧
    ((⟨0, 0⟩ : Cell) ≠ ⟨2, 2⟩ ∧ ¬ isNeighbor ⟨0, 0⟩ ⟨2, 2⟩) :=
  ⟨by decide, by decide, by decide, by decide, by decide,
    reachable_ships_apart boardC2
      (Reachable.add_ship _ shipC2b
        (Reachable.add_ship _ shipC2a (Reachable.init 4 (freshBoard 4) rfl)))
      shipC2a (by decide) shipC2b (by decide) (by decide)
      ⟨0, 0⟩ (by decide) ⟨2, 2⟩ (by decide)⟩

/-- C3: an accepted shot records its coordinate and resolves exactly as the
spec says — removal from the owning vessel with Hit or Sink and a Hit mark,
or a Miss mark and Miss when no vessel owns it; and shooting every
coordinate of a vessel one by one yields Hit until the last, Sink on the
last, after which the vessel is gone from the live set. -/
theorem shot_resolution :
    (∀ (b : Board) (c : Cell) (l1 l2 : List Ship) (s : Ship),
      b.WF → b.inb c = true → c ∉ b.shots → b.ships = l1 ++ s :: l2 →
      (∀ w ∈ l1, c ∉ w.cells) → c ∈ s.cells →
      (b.shot c).2.shots = insert c b.shots ∧
      (b.shot c).2.get_cell c = Except.ok CellState.WRECK ∧
      (s.cells.erase c ≠ ∅ →
        (b.shot c).1 = Except.ok ShipState.HIT ∧
        (b.shot c).2.ships = l1 ++ (⟨s.cells.erase c⟩ : Ship) :: l2) ∧
      (s.cells.erase c = ∅ →
        (b.shot c).1 = Except.ok ShipState.SINK ∧
        (b.shot c).2.ships = l1 ++ l2)) ∧
    (∀ (b : Board) (c : Cell),
      b.WF → b.inb c = true → c ∉ b.shots → (∀ w ∈ b.ships, c ∉ w.cells) →
      (b.shot c).1 = Except.ok ShipState.MISS ∧
      (b.shot c).2.shots = insert c b.shots ∧
      (b.shot c).2.ships = b.ships ∧
      (b.shot c).2.get_cell c = Except.ok CellState.MISS) ∧
    (∀ (cs : List Cell) (b : Board) (l1 l2 : List Ship) (s : Ship),
      b.WF → b.ships = l1 ++ s :: l2 → cs ≠ [] → cs.Nodup →
      cs.toFinset = s.cells →
      (∀ c ∈ cs, b.inb c = true ∧ c ∉ b.shots) →
      (∀ w ∈ l1 ++ l2, ∀ c ∈ cs, c ∉ w.cells) →
      (shootSeq b cs).1 =
        List.replicate (cs.length - 1) (Except.ok ShipState.HIT) ++
          [Except.ok ShipState.SINK] ∧
      (shootSeq b cs).2.ships = l1 ++ l2) := by
  refine ⟨?_, ?_, shootSeq_sink⟩
  · intro b c l1 l2 s hwf hib hsh hships h1 hs
    by_cases he : s.cells.erase c = ∅
    · have hshot := (Board.shot_hit_spec hsh hib hships h1 hs).1 he
      have hb2 := congrArg Prod.snd hshot
      have hres := congrArg Prod.fst hshot
      refine ⟨by rw [hb2]; rfl, ?_, fun hne => absurd he hne,
        fun _ => ⟨hres, by rw [hb2]; rfl⟩⟩
      rw [hb2]
      exact @Board.get_cell_upd_self
        { b with shots := insert c b.shots, ships := l1 ++ l2 } c
        CellState.WRECK hwf hib
    · have hshot := (Board.shot_hit_spec hsh hib hships h1 hs).2 he
      have hb2 := congrArg Prod.snd hshot
      have hres := congrArg Prod.fst hshot
      refine ⟨by rw [hb2]; rfl, ?_, fun _ => ⟨hres, by rw [hb2]; rfl⟩,
        fun he2 => absurd he2 he⟩
      rw [hb2]
      exact @Board.get_cell_upd_self
        { b with shots := insert c b.shots, ships := l1 ++ (⟨s.cells.erase c⟩ : Ship) :: l2 }
        c CellState.WRECK hwf hib
  · intro b c hwf hib hsh hmiss
    have hshot := Board.shot_miss_spec hsh hib hmiss
    have hb2 := congrArg Prod.snd hshot
    have hres := congrArg Prod.fst hshot
    refine ⟨hres, by rw [hb2]; rfl, by rw [hb2]; rfl, ?_⟩
    rw [hb2]
    exact @Board.get_cell_upd_self
      { b with shots := insert c b.shots } c CellState.MISS hwf hib

/-- Witness for C3: shooting the two cells of the two-cell vessel on
boardC3 yields Hit then Sink and empties the live-vessel set. -/
theorem shot_resolution_witness :
    (shootSeq boardC3 [⟨0, 0⟩, ⟨0, 1⟩]).1 =
      List.replicate (([⟨0, 0⟩, ⟨0, 1⟩] : List Cell).length - 1)
        (Except.ok ShipState.HIT) ++ [Except.ok ShipState.SINK] ∧
    (shootSeq boardC3 [⟨0, 0⟩, ⟨0, 1⟩]).2.ships = [] ++ [] :=
  shot_resolution.2.2 [⟨0, 0⟩, ⟨0, 1⟩] boardC3 [] [] shipC3
    (by decide) (by decide) (by decide) (by decide) (by decide)
    (by decide) (by decide)

/-- C4: with every coordinate of the vessel on the board, add_ship is
all-or-nothing — it is rejected exactly when some coordinate sits on a
non-Empty cell or has an Occupied 8-neighbour, a rejection mutates
nothing, and a success marks exactly the vessel cells Occupied and appends
the vessel to the live set. -/
theorem place_vessel_all_or_nothing (b : Board) (ship : Ship) (hwf : b.WF)
    (hin : ∀ c ∈ ship.cells, b.inb c = true) :
    ((b.add_ship ship).1 = Except.error BoardErr.shipPlacement ↔
      ∃ c ∈ ship.cells, b.get_cell c ≠ Except.ok CellState.FREE ∨
        ∃ d, isNeighbor c d ∧ b.get_cell d = Except.ok CellState.SHIP) ∧
    ((b.add_ship ship).1 = Except.error BoardErr.shipPlacement →
      (b.add_ship ship).2 = b) ∧
    ((b.add_ship ship).1 = Except.ok () →
      (b.add_ship ship).2.ships = b.ships ++ [ship] ∧
      (b.add_ship ship).2.shots = b.shots ∧
      (∀ c ∈ ship.cells, (b.add_ship ship).2.get_cell c = Except.ok CellState.SHIP) ∧
      (∀ d, d ∉ ship.cells → (b.add_ship ship).2.get_cell d = b.get_cell d)) := by
  have hinl : ∀ c ∈ ship.cellList, b.inb c = true :=
    fun c hc => hin c (Ship.mem_cellList.mp hc)
  have hviol : ∀ cell ∈ ship.cellList,
      (¬ (b.get_cell cell ≠ Except.ok CellState.FREE ∨
        ∃ d, isNeighbor cell d ∧ b.get_cell d = Except.ok CellState.SHIP)) →
      b.check_ship_cell cell = Except.ok () := by
    intro cell hc hno
    push_neg at hno
    refine Board.check_ship_cell_ok_iff.mpr ⟨hno.1, ?_⟩
    rw [List.any_eq_false]
    intro n hn
    obtain ⟨hnb, hnin⟩ := Board.mem_get_nbhd.mp hn
    intro hship
    exact (hno.2 n hnb) (Board.isShipAt_iff.mp hship)
  rcases Board.check_ship_cases hinl with hchk | hchk
  · obtain ⟨h1, h2, h3, h4, h5, h6, h7⟩ := Board.add_ship_ok_spec hwf hchk
    refine ⟨?_, ?_, fun _ => ⟨h4, h3, h6, h7⟩⟩
    · rw [h1]
      constructor
      · intro hx
        cases hx
      · rintro ⟨c, hc, hbad⟩
        exfalso
        have hcell := Board.check_ship_ok_iff.mp hchk c (Ship.mem_cellList.mpr hc)
        obtain ⟨hfree, hany⟩ := Board.check_ship_cell_ok_iff.mp hcell
        rcases hbad with hbad | ⟨d, hnb, hdship⟩
        · exact hbad hfree
        · have hdin : b.inb d = true := Board.get_cell_ok_inb hdship
          have hdmem : d ∈ b.get_nbhd c AREA_FULL :=
            Board.mem_get_nbhd.mpr ⟨hnb, hdin⟩
          exact (List.any_eq_false.mp hany d hdmem) (Board.isShipAt_iff.mpr hdship)
    · intro hx
      rw [h1] at hx
      cases hx
  · have herr := Board.add_ship_err hchk
    have h1 : (b.add_ship ship).1 = Except.error BoardErr.shipPlacement :=
      congrArg Prod.fst herr
    refine ⟨?_, fun _ => congrArg Prod.snd herr, ?_⟩
    · rw [h1]
      constructor
      · intro _
        by_contra hno
        push_neg at hno
        have hok : b.check_ship ship.cellList = Except.ok () := by
          rw [Board.check_ship_ok_iff]
          intro cell hc
          refine hviol cell hc ?_
          intro hbad
          rcases hbad with hbad | ⟨d, hnb, hdship⟩
          · exact hbad (hno cell (Ship.mem_cellList.mp hc)).1
          · exact (hno cell (Ship.mem_cellList.mp hc)).2 d hnb hdship
        rw [hok] at hchk
        cases hchk
      · intro _
        rfl
    · intro hx
      rw [h1] at hx
      cases hx

/-- Witness for C4: on boardC3 the one-cell vessel at (1,2), diagonally
touching the vessel at (0,1), is rejected and the board is untouched. -/
theorem place_vessel_all_or_nothing_witness :
    (boardC3.add_ship shipC4w).1 = Except.error BoardErr.shipPlacement ∧
    (boardC3.add_ship shipC4w).2 = boardC3 :=
  have hmain := place_vessel_all_or_nothing boardC3 shipC4w (by decide) (by decide)
  have h1 : (boardC3.add_ship shipC4w).1 = Except.error BoardErr.shipPlacement :=
    hmain.1.mpr ⟨⟨1, 2⟩, by decide,
      Or.inr ⟨⟨0, 1⟩, by decide, by decide⟩⟩
  ⟨h1, hmain.2.1 h1⟩

/-- C5, counterexample to the claim as stated: for the request
ship_set = [1] on a fresh 10×10 board, with a stream whose every pass
places its vessel at the first attempt, the placer keeps looping after the
single requested size has been placed and returns success only once the
board carries 7 vessels — the length of the global SHIP_SET that
Game.place_ships compares against, not of its ship_set argument. -/
theorem place_ships_cex :
    (Game.place_ships board10 [1] rngC5).1 = Except.ok boardC5 ∧
    boardC5.ships.length ≠ ([1] : List Nat).length := by
  constructor
  · rfl
  · decide

/-- C5 (amended): each size is retried up to 1000 times, stopping at the
first successful placement, the board passed unchanged across rejected
attempts; a size exhausting its attempts ends the pass; the outer loop is
bounded to 100 passes and exhausting it raises
BoardShipPlacementException — the same kind as a per-attempt rejection,
with no distinct exhausted kind; with sizes that fit the board the placer
fails only with that kind, and a successful return carries a board whose
ship count equals the length of the global SHIP_SET, not of the given
list. -/
theorem place_ships_amended :
    (∀ (b : Board) (n : Nat) (g : Rng) (tries : Nat),
      ((b.add_ship (ShipFactory.build_ship n b.size g).1).1 = Except.ok () →
        placeOne (tries + 1) b n g =
          (Except.ok (some (b.add_ship (ShipFactory.build_ship n b.size g).1).2),
            (ShipFactory.build_ship n b.size g).2)) ∧
      ((b.add_ship (ShipFactory.build_ship n b.size g).1).1 =
          Except.error BoardErr.shipPlacement →
        placeOne (tries + 1) b n g =
          placeOne tries b n (ShipFactory.build_ship n b.size g).2)) ∧
    (∀ (b : Board) (n : Nat) (g : Rng), placeOne 0 b n g = (Except.ok none, g)) ∧
    (∀ (b : Board) (ship_set : List Nat) (g : Rng),
      placeLoop 0 b ship_set g = (Except.error BoardErr.shipPlacement, g)) ∧
    (∀ (b : Board) (ship_set : List Nat) (g : Rng), b.WF →
      (∀ n ∈ ship_set, n ≤ b.size) →
      (∀ e, (Game.place_ships b ship_set g).1 = Except.error e →
        e = BoardErr.shipPlacement) ∧
      (∀ b', (Game.place_ships b ship_set g).1 = Except.ok b' →
        b'.ships.length = SHIP_SET.length)) := by
  refine ⟨?_, fun b n g => rfl, fun b s g => rfl,
    fun b s g hwf hn => placeLoop_spec 100 b s g hwf hn⟩
  intro b n g tries
  constructor
  · intro hok
    simp only [placeOne]
    rcases hadd : b.add_ship (ShipFactory.build_ship n b.size g).1 with ⟨res, b1⟩
    rw [hadd] at hok
    simp only at hok
    subst hok
    rfl
  · intro herr
    simp only [placeOne]
    rcases hadd : b.add_ship (ShipFactory.build_ship n b.size g).1 with ⟨res, b1⟩
    rw [hadd] at herr
    simp only at herr
    subst herr
    rfl

/-- Witness for the amended C5 theorem at the concrete run of the
counterexample: the run succeeds and its board carries exactly
SHIP_SET.length vessels. -/
theorem place_ships_amended_witness :
    (Game.place_ships board10 [1] rngC5).1 = Except.ok boardC5 ∧
    boardC5.ships.length = SHIP_SET.length :=
  ⟨rfl,
    (place_ships_amended.2.2.2 board10 [1] rngC5 (by decide) (by decide)).2
      boardC5 rfl⟩

theorem mem_nbhd_v_iff_inb {b : Board} {h0 c : Cell} (hin : b.inb h0 = true) :
    c ∈ b.get_nbhd_v h0 ↔
      b.inb c = true ∧ (c = ⟨h0.row - 1, h0.col⟩ ∨ c = ⟨h0.row + 1, h0.col⟩) := by
  rw [Board.mem_get_nbhd_v]
  obtain ⟨a1, a2, a3, a4⟩ := Board.inb_iff.mp hin
  constructor
  · rintro ⟨hor, hb1, hb2⟩
    refine ⟨Board.inb_iff.mpr ⟨hb1, hb2, ?_, ?_⟩, hor⟩ <;>
      rcases hor with rfl | rfl <;> dsimp only <;> omega
  · rintro ⟨hinb, hor⟩
    obtain ⟨c1, c2, c3, c4⟩ := Board.inb_iff.mp hinb
    exact ⟨hor, c1, c2⟩

theorem mem_nbhd_h_iff_inb {b : Board} {h0 c : Cell} (hin : b.inb h0 = true) :
    c ∈ b.get_nbhd_h h0 ↔
      b.inb c = true ∧ (c = ⟨h0.row, h0.col - 1⟩ ∨ c = ⟨h0.row, h0.col + 1⟩) := by
  rw [Board.mem_get_nbhd_h]
  obtain ⟨a1, a2, a3, a4⟩ := Board.inb_iff.mp hin
  constructor
  · rintro ⟨hor, hb1, hb2⟩
    refine ⟨Board.inb_iff.mpr ⟨?_, ?_, hb1, hb2⟩, hor⟩ <;>
      rcases hor with rfl | rfl <;> dsimp only <;> omega
  · rintro ⟨hinb, hor⟩
    obtain ⟨c1, c2, c3, c4⟩ := Board.inb_iff.mp hinb
    exact ⟨hor, c3, c4⟩

/-- C6: the pre-filter chase candidate set — with one active hit, its
vertical and horizontal neighbours clipped to the board; with two or more,
the row delta of the first two recorded hits alone picks the direction and
the candidates are that direction's neighbours of every active hit; and on
the concrete 10×10 example with activeHits = [(2,3)] the set is exactly
{(1,3),(3,3),(2,2),(2,4)}. -/
theorem chase_candidate_set :
    (∀ (r : Robot) (h0 : Cell), r.hits = [h0] →
      r.enemy_board.inb h0 = true →
      ∀ c, c ∈ r.chase_nbhd ↔
        (r.enemy_board.inb c = true ∧
          (c = ⟨h0.row - 1, h0.col⟩ ∨ c = ⟨h0.row + 1, h0.col⟩ ∨
           c = ⟨h0.row, h0.col - 1⟩ ∨ c = ⟨h0.row, h0.col + 1⟩))) ∧
    (∀ (r : Robot) (h0 h1 : Cell) (rest : List Cell),
      r.hits = h0 :: h1 :: rest →
      (∀ h ∈ r.hits, r.enemy_board.inb h = true) →
      h0.row ≠ h1.row →
      ∀ c, c ∈ r.chase_nbhd ↔
        ∃ h ∈ r.hits, r.enemy_board.inb c = true ∧
          (c = ⟨h.row - 1, h.col⟩ ∨ c = ⟨h.row + 1, h.col⟩)) ∧
    (∀ (r : Robot) (h0 h1 : Cell) (rest : List Cell),
      r.hits = h0 :: h1 :: rest →
      (∀ h ∈ r.hits, r.enemy_board.inb h = true) →
      h0.row = h1.row →
      ∀ c, c ∈ r.chase_nbhd ↔
        ∃ h ∈ r.hits, r.enemy_board.inb c = true ∧
          (c = ⟨h.row, h.col - 1⟩ ∨ c = ⟨h.row, h.col + 1⟩)) ∧
    robotC6.chase_nbhd.toFinset =
      ({⟨1, 3⟩, ⟨3, 3⟩, ⟨2, 2⟩, ⟨2, 4⟩} : Finset Cell) := by
  refine ⟨?_, ?_, ?_, by decide⟩
  · intro r h0 hh hin c
    rw [Robot.chase_nbhd_single hh, mem_nbhd_v_iff_inb hin, mem_nbhd_h_iff_inb hin]
    tauto
  · intro r h0 h1 rest hh hin hrow c
    have hcond : h0.row - h1.row ≠ 0 := by omega
    rw [Robot.chase_nbhd_multi hh]
    simp only [if_pos hcond]
    constructor
    · rintro ⟨h, hhm, hm⟩
      exact ⟨h, hhm, (mem_nbhd_v_iff_inb (hin h hhm)).mp hm⟩
    · rintro ⟨h, hhm, hm⟩
      exact ⟨h, hhm, (mem_nbhd_v_iff_inb (hin h hhm)).mpr hm⟩
  · intro r h0 h1 rest hh hin hrow c
    have hcond : ¬ (h0.row - h1.row ≠ 0) := by omega
    rw [Robot.chase_nbhd_multi hh]
    simp only [if_neg hcond]
    constructor
    · rintro ⟨h, hhm, hm⟩
      exact ⟨h, hhm, (mem_nbhd_h_iff_inb (hin h hhm)).mp hm⟩
    · rintro ⟨h, hhm, hm⟩
      exact ⟨h, hhm, (mem_nbhd_h_iff_inb (hin h hhm)).mpr hm⟩

/-- Witness for C6 at the concrete single-hit robot state. -/
theorem chase_candidate_set_witness :
    (⟨1, 3⟩ : Cell) ∈ robotC6.chase_nbhd ↔
      (robotC6.enemy_board.inb ⟨1, 3⟩ = true ∧
        ((⟨1, 3⟩ : Cell) = ⟨(2 : Int) - 1, 3⟩ ∨ (⟨1, 3⟩ : Cell) = ⟨(2 : Int) + 1, 3⟩ ∨
         (⟨1, 3⟩ : Cell) = ⟨2, (3 : Int) - 1⟩ ∨ (⟨1, 3⟩ : Cell) = ⟨2, (3 : Int) + 1⟩)) :=
  chase_candidate_set.1 robotC6 ⟨2, 3⟩ rfl (by decide) ⟨1, 3⟩

/-- C7 (code bug): after the chase filter, the candidate (1,2) survives even
though its 8-neighbour (0,2) is marked Hit on the revealed view and is not
one of the active hits — the filter loop discards the wreck neighbour
cell_ from the candidate set instead of the candidate cell itself, leaving
the candidate in place, against the inline comment stating the cell should
be removed. -/
theorem chase_filter_keeps_wreck_adjacent_candidate :
    (⟨1, 2⟩ : Cell) ∈ robotC7.chase_candidates ∧
    (⟨1, 2⟩ : Cell) ∉ robotC7.move_list ∧
    isNeighbor ⟨1, 2⟩ ⟨0, 2⟩ ∧
    robotC7.enemy_board.get_cell ⟨0, 2⟩ = Except.ok CellState.WRECK ∧
    (⟨0, 2⟩ : Cell) ∉ robotC7.hits :=
  ⟨by decide, by decide, by decide, by decide, by decide⟩

/-- C8: in Hunt mode (no active hits) the move the automated strategy
returns is never a coordinate it has already played and never an
8-neighbour of a coordinate marked Hit on its revealed view. -/
theorem hunt_avoids_wrecks (r : Robot) (fuel : Nat) (g g' : Rng) (c : Cell)
    (hh : r.hits = []) (hb : r.brain fuel g = (some c, g')) :
    c ∉ r.move_list ∧
    ∀ d, isNeighbor c d →
      r.enemy_board.get_cell d ≠ Except.ok CellState.WRECK := by
  unfold Robot.brain at hb
  rw [hh, if_neg (fun hx => hx rfl)] at hb
  obtain ⟨h1, h2⟩ := Robot.random_hit_spec hb
  refine ⟨h1, ?_⟩
  intro d hnb hget
  have hdin : r.enemy_board.inb d = true := Board.get_cell_ok_inb hget
  have hdmem : d ∈ r.enemy_board.get_nbhd c AREA_FULL :=
    Board.mem_get_nbhd.mpr ⟨hnb, hdin⟩
  have h3 := h2 d hdmem
  have h4 := Board.isWreckAt_iff.mpr hget
  rw [h3] at h4
  cases h4

/-- Witness for C8: the hunting robot on the empty 2×2 board picks (0,0),
which is unplayed and has no Hit-marked neighbour on its view. -/
theorem hunt_avoids_wrecks_witness :
    (⟨0, 0⟩ : Cell) ∉ robotC8.move_list ∧
    robotC8.enemy_board.get_cell ⟨0, 1⟩ ≠ Except.ok CellState.WRECK :=
  have h := hunt_avoids_wrecks robotC8 1 zeroRng rngC8' ⟨0, 0⟩ rfl rfl
  ⟨h.1, h.2 ⟨0, 1⟩ (by decide)⟩

/-- C9: the automated strategy's choices depend only on its own state and
the random source — two enemy boards revealing identical outcome sequences
draw identical move sequences; the strategy's inputs contain only its
private view, never the enemy board's hidden cells. -/
theorem robot_noninterference (r : Robot) (enemy1 enemy2 : Board)
    (fuel : Nat) (g : Rng) (n : Nat)
    (hout : (robotVs r enemy1 fuel g n).2 = (robotVs r enemy2 fuel g n).2) :
    (robotVs r enemy1 fuel g n).1 = (robotVs r enemy2 fuel g n).1 := by
  induction n generalizing r g enemy1 enemy2 with
  | zero => rfl
  | succ k ih =>
      rcases hask : r.ask_move fuel g with ⟨mc, r1, g1⟩
      cases mc with
      | none => simp [robotVs, hask]
      | some cell =>
          rcases hs1 : enemy1.shot cell with ⟨res1, e1'⟩
          rcases hs2 : enemy2.shot cell with ⟨res2, e2'⟩
          cases res1 with
          | error er1 =>
              cases res2 with
              | error er2 => simp [robotVs, hask, hs1, hs2]
              | ok a2 => simp [robotVs, hask, hs1, hs2] at hout
          | ok a1 =>
              cases res2 with
              | error er2 => simp [robotVs, hask, hs1, hs2] at hout
              | ok a2 =>
                  simp only [robotVs, hask, hs1, hs2] at hout ⊢
                  simp only [List.cons.injEq] at hout ⊢
                  obtain ⟨rfl, htail⟩ := hout
                  exact ⟨trivial, ih _ _ _ _ htail⟩

/-- Witness for C9: facing the empty 3×3 board and the 3×3 board with a
vessel at (2,2), the robot's first shot (0,0) misses on both, so the
revealed outcomes agree and the chosen moves agree. -/
theorem robot_noninterference_witness :
    (robotVs robotC9 boardC9a 5 zeroRng 1).2 =
      (robotVs robotC9 boardC9b 5 zeroRng 1).2 ∧
    (robotVs robotC9 boardC9a 5 zeroRng 1).1 =
      (robotVs robotC9 boardC9b 5 zeroRng 1).1 :=
  ⟨by decide, robot_noninterference robotC9 boardC9a boardC9b 5 zeroRng 1 (by decide)⟩

/-- C10: clear empties the live-vessel set and resets every cell to Empty
but leaves the shots set as it was, so a coordinate fired upon before the
clear is still rejected with AlreadyShot afterwards. -/
theorem clear_keeps_shots (b : Board) (c : Cell) :
    b.clear.ships = [] ∧
    b.clear.shots = b.shots ∧
    (b.inb c = true → b.clear.get_cell c = Except.ok CellState.FREE) ∧
    (c ∈ b.shots → b.clear.shot c = (Except.error BoardErr.used, b.clear)) := by
  refine ⟨rfl, rfl, fun h => Board.clear_get_cell h, fun h => Board.shot_already ?_⟩
  exact h

/-- Witness for C10 on the board that has taken a hit at (0,0) and been
cleared: the shot is still recorded and a repeat is rejected. -/
theorem clear_keeps_shots_witness :
    (⟨0, 0⟩ : Cell) ∈ boardC10.shots ∧
    boardC10.clear.shot ⟨0, 0⟩ = (Except.error BoardErr.used, boardC10.clear) ∧
    boardC10.clear.get_cell ⟨0, 0⟩ = Except.ok CellState.FREE :=
  ⟨by decide, (clear_keeps_shots boardC10 ⟨0, 0⟩).2.2.2 (by decide),
    (clear_keeps_shots boardC10 ⟨0, 0⟩).2.2.1 (by decide)⟩
